import Mathlib

/-!
# kubectl-zonepeek: correlation of pods, nodes and persistent volumes by zone

A shallow embedding of `main.go`.  The program lists the pods matching a label
selector, looks up every pod's node and every claim-backed volume of the pod,
records the zone labels, and prints the result as a table, as text or as JSON.

Modelling decisions:

* A Go `string` is an immutable sequence of bytes; it is a `List Nat` here (one
  number below 256 per byte).  String constants of the source are written
  `lit "..."`, the UTF-8 bytes of the constant.
* The cluster API (`clientset`) is a parameter: three lookup functions that
  either return a record or an error.  One run sees one snapshot of the cluster.
* Every lookup the program performs is appended to a log of calls, so that
  "no lookup is made" is a statement about that log.
* `panic(err.Error())` ends the run: the result is `Except.error`.
* Standard output is an in-memory byte sink that accepts every write.
* Of the Go standard library, the column formatting of `text/tabwriter` is a
  parameter (`tabfmt`), and `encoding/json` is modelled for the two record types
  of the program (section "UTF-8 and JSON").
-/

namespace ZonePeek

/-! ## Strings -/

/-- A Go string: a sequence of bytes. -/
abbrev GoString := List Nat

/-- Model of `utf8.AppendRune` on an empty buffer: the UTF-8 bytes of rune `r`
(the bytes of U+FFFD for a surrogate or a value above U+10FFFF). -/
def encodeRune (r : Nat) : GoString :=
  if r ≤ 0x7F then [r]
  else if r ≤ 0x7FF then [0xC0 + r / 64, 0x80 + r % 64]
  else if 0x10FFFF < r ∨ (0xD800 ≤ r ∧ r ≤ 0xDFFF) then [0xEF, 0xBF, 0xBD]
  else if r ≤ 0xFFFF then [0xE0 + r / 4096, 0x80 + r / 64 % 64, 0x80 + r % 64]
  else [0xF0 + r / 262144, 0x80 + r / 4096 % 64, 0x80 + r / 64 % 64, 0x80 + r % 64]

/-- The bytes of a string constant of the source (Go source text is UTF-8). -/
def lit (s : String) : GoString :=
  s.toList.flatMap (fun c => encodeRune c.toNat)

/-! ## Records of the cluster API (the fields `main.go` reads) -/

/-- A Go `map[string]string`, as an association list; `m[k]` is `Labels.get`. -/
abbrev Labels := List (GoString × GoString)

/-- Go map indexing `m[k]`: the bound value, or the zero value `""` when `k` is absent. -/
def Labels.get (m : Labels) (k : GoString) : GoString :=
  match m.lookup k with
  | some v => v
  | none => []

/-- The label key read from nodes and volumes. -/
def zoneKey : GoString := lit "topology.kubernetes.io/zone"

structure PersistentVolumeClaimVolumeSource where
  ClaimName : GoString
deriving DecidableEq, Repr

structure Volume where
  Name : GoString
  PersistentVolumeClaim : Option PersistentVolumeClaimVolumeSource
deriving DecidableEq, Repr

structure PodSpec where
  NodeName : GoString
  Volumes : List Volume
deriving DecidableEq, Repr

structure Pod where
  Name : GoString
  Namespace : GoString
  Spec : PodSpec
deriving DecidableEq, Repr

structure Node where
  Labels : Labels
deriving DecidableEq, Repr

structure PersistentVolumeClaimSpec where
  VolumeName : GoString
deriving DecidableEq, Repr

structure PersistentVolumeClaim where
  Spec : PersistentVolumeClaimSpec
deriving DecidableEq, Repr

structure PersistentVolume where
  Labels : Labels
deriving DecidableEq, Repr

/-! ## The collaborator -/

/-- The three lookups of `clientset.CoreV1()` that the per-pod loop uses. -/
structure Clientset where
  getNode : GoString → Except GoString Node
  getPVC : GoString → GoString → Except GoString PersistentVolumeClaim
  getPV : GoString → Except GoString PersistentVolume

/-- One lookup made against the collaborator. -/
inductive Call where
  | node (name : GoString)
  | claim (ns name : GoString)
  | volume (name : GoString)
deriving DecidableEq, Repr

/-- Whether an `Except` value is an error. -/
def isError {ε α : Type} : Except ε α → Bool
  | .error _ => true
  | .ok _ => false

/-- Whether the collaborator answers a lookup with an error. -/
def Clientset.fails (c : Clientset) : Call → Bool
  | .node name => isError (c.getNode name)
  | .claim ns name => isError (c.getPVC ns name)
  | .volume name => isError (c.getPV name)

/-! ## The report records (`main.go` lines 18-30) -/

structure PVDetails where
  PVCName : GoString
  PVName : GoString
  PVZone : GoString
deriving DecidableEq, Repr

structure PodInfo where
  PodName : GoString
  NodeName : GoString
  NodeZone : GoString
  PVInfo : List PVDetails
  ZoneMatched : Bool
deriving DecidableEq, Repr

/-- The state of a run: the value computed so far and the lookups made so far. -/
structure Run (α : Type) where
  value : Except GoString α
  calls : List Call

/-! ## The per-pod loop (`main.go` lines 72-111) -/

/-- The loop over `pod.Spec.Volumes` (lines 85-108), started with the `podInfo`
built so far and the lookups made so far. -/
def volumeLoop (c : Clientset) (pod : Pod) :
    List Volume → PodInfo → List Call → Run PodInfo
  | [], podInfo, calls => ⟨.ok podInfo, calls⟩
  | volume :: rest, podInfo, calls =>
    match volume.PersistentVolumeClaim with
    | none => volumeLoop c pod rest podInfo calls
    | some src =>
      let calls := calls ++ [Call.claim pod.Namespace src.ClaimName]
      match c.getPVC pod.Namespace src.ClaimName with
      | .error err => ⟨.error err, calls⟩
      | .ok pvc =>
        let calls := calls ++ [Call.volume pvc.Spec.VolumeName]
        match c.getPV pvc.Spec.VolumeName with
        | .error err => ⟨.error err, calls⟩
        | .ok pv =>
          let pvDetails : PVDetails :=
            { PVCName := src.ClaimName
              PVName := pvc.Spec.VolumeName
              PVZone := pv.Labels.get zoneKey }
          let podInfo := { podInfo with PVInfo := podInfo.PVInfo ++ [pvDetails] }
          let podInfo :=
            if pvDetails.PVZone = podInfo.NodeZone then
              { podInfo with ZoneMatched := true }
            else podInfo
          volumeLoop c pod rest podInfo calls

/-- The body of the loop over `pods.Items` (lines 74-110): the `PodInfo` of one pod. -/
def podBody (c : Clientset) (pod : Pod) (calls : List Call) : Run PodInfo :=
  let podInfo : PodInfo :=
    { PodName := pod.Name
      NodeName := pod.Spec.NodeName
      NodeZone := []
      PVInfo := []
      ZoneMatched := false }
  let calls := calls ++ [Call.node pod.Spec.NodeName]
  match c.getNode pod.Spec.NodeName with
  | .error err => ⟨.error err, calls⟩
  | .ok node =>
    let podInfo := { podInfo with NodeZone := node.Labels.get zoneKey }
    volumeLoop c pod pod.Spec.Volumes podInfo calls

/-- The loop over `pods.Items` (lines 72-111), started with the `podInfos`
collected so far. -/
def podLoop (c : Clientset) : List Pod → List PodInfo → List Call → Run (List PodInfo)
  | [], podInfos, calls => ⟨.ok podInfos, calls⟩
  | pod :: rest, podInfos, calls =>
    match podBody c pod calls with
    | ⟨.error err, calls⟩ => ⟨.error err, calls⟩
    | ⟨.ok podInfo, calls⟩ => podLoop c rest (podInfos ++ [podInfo]) calls

/-! ## UTF-8 and JSON

Models of the functions of the Go standard library behind `printJSON`:
`utf8.DecodeRune`, `utf8.AppendRune`, `utf8.Valid`, `json.MarshalIndent` and
`json.Unmarshal`.  The library is not part of the repository; the models follow
its documented behaviour for the types `[]PodInfo` and `[]PVDetails`.  A list
stands for a Go slice; the empty list stands for the nil slice, the only empty
slice that `main` builds. -/

/-- The rune `utf8.RuneError`, U+FFFD. -/
def runeError : Nat := 0xFFFD

/-- Whether `b` is a UTF-8 continuation byte (`0x80` to `0xBF`). -/
def isCont (b : Nat) : Bool := decide (0x80 ≤ b ∧ b ≤ 0xBF)

/-- Model of `utf8.DecodeRune`: the first rune of `p` and its width in bytes;
`(RuneError, 1)` when `p` does not start with a valid encoding, `(RuneError, 0)`
when `p` is empty.  The lead byte fixes the width and the range accepted for
the second byte (no overlong forms, no surrogates, nothing above U+10FFFF); the
masks of the library (`p0 & 0x1F`, `b & 0x3F`, ...) are subtractions here, which
is the same on the accepted ranges. -/
def decodeRune : GoString → Nat × Nat
  | [] => (runeError, 0)
  | p0 :: rest =>
    if p0 < 0x80 then (p0, 1)
    else if p0 < 0xC2 then (runeError, 1)
    else if p0 < 0xE0 then
      match rest with
      | b1 :: _ =>
        if isCont b1 then ((p0 - 0xC0) * 64 + (b1 - 0x80), 2) else (runeError, 1)
      | [] => (runeError, 1)
    else if p0 < 0xF0 then
      match rest with
      | b1 :: b2 :: _ =>
        if (if p0 = 0xE0 then 0xA0 else 0x80) ≤ b1 ∧ b1 ≤ (if p0 = 0xED then 0x9F else 0xBF)
            ∧ isCont b2 then
          ((p0 - 0xE0) * 4096 + (b1 - 0x80) * 64 + (b2 - 0x80), 3)
        else (runeError, 1)
      | _ => (runeError, 1)
    else if p0 < 0xF5 then
      match rest with
      | b1 :: b2 :: b3 :: _ =>
        if (if p0 = 0xF0 then 0x90 else 0x80) ≤ b1 ∧ b1 ≤ (if p0 = 0xF4 then 0x8F else 0xBF)
            ∧ isCont b2 ∧ isCont b3 then
          ((p0 - 0xF0) * 262144 + (b1 - 0x80) * 4096 + (b2 - 0x80) * 64 + (b3 - 0x80), 4)
        else (runeError, 1)
      | _ => (runeError, 1)
    else (runeError, 1)

/-- The loop of `utf8.Valid`, by runes; `fuel` bounds the number of runes. -/
def validLoop : Nat → GoString → Bool
  | 0, s => s.isEmpty
  | _ + 1, [] => true
  | fuel + 1, b :: rest =>
    if b < 0x80 then validLoop fuel rest
    else if decodeRune (b :: rest) = (runeError, 1) then false
    else validLoop fuel ((b :: rest).drop (decodeRune (b :: rest)).2)

/-- Model of `utf8.Valid`: whether `s` consists entirely of valid UTF-8 encodings. -/
def validUTF8 (s : GoString) : Bool := validLoop s.length s

/-- The digit of `n` in the table `"0123456789abcdef"` of `encoding/json`. -/
def hexDigit (n : Nat) : Nat :=
  if n < 10 then 0x30 + n else 0x61 + (n - 10)

/-- The table `htmlSafeSet` of `encoding/json`: the ASCII bytes that
`json.Marshal` copies into a string literal as they are. -/
def htmlSafe (b : Nat) : Bool :=
  decide (0x20 ≤ b ∧ b < 0x80 ∧ b ≠ 0x22 ∧ b ≠ 0x26 ∧ b ≠ 0x3C ∧ b ≠ 0x3E ∧ b ≠ 0x5C)

/-- The escape that `json.Marshal` writes for an ASCII byte outside `htmlSafeSet`
(Go 1.22 and later; earlier releases write `\u0008` and `\u000c` for backspace
and form feed, which the reader decodes to the same bytes). -/
def escapeByte (b : Nat) : GoString :=
  if b = 0x5C ∨ b = 0x22 then [0x5C, b]
  else if b = 0x08 then lit "\\b"
  else if b = 0x0C then lit "\\f"
  else if b = 0x0A then lit "\\n"
  else if b = 0x0D then lit "\\r"
  else if b = 0x09 then lit "\\t"
  else lit "\\u00" ++ [hexDigit (b / 16), hexDigit (b % 16)]

/-- The loop of `appendString` in `encoding/json` (with `escapeHTML` set): the
body of the string literal for `s`; `fuel` bounds the number of runes. -/
def quoteLoop : Nat → GoString → GoString
  | 0, _ => []
  | _ + 1, [] => []
  | fuel + 1, b :: rest =>
    if b < 0x80 then
      (if htmlSafe b then [b] else escapeByte b) ++ quoteLoop fuel rest
    else if decodeRune (b :: rest) = (runeError, 1) then
      lit "\\ufffd" ++ quoteLoop fuel rest
    else if (decodeRune (b :: rest)).1 = 0x2028 ∨ (decodeRune (b :: rest)).1 = 0x2029 then
      lit "\\u202" ++ [hexDigit ((decodeRune (b :: rest)).1 % 16)] ++
        quoteLoop fuel ((b :: rest).drop (decodeRune (b :: rest)).2)
    else
      (b :: rest).take (decodeRune (b :: rest)).2 ++
        quoteLoop fuel ((b :: rest).drop (decodeRune (b :: rest)).2)

/-- Model of `appendString`: the JSON string literal for `s`, quotes included. -/
def quote (s : GoString) : GoString :=
  [0x22] ++ quoteLoop s.length s ++ [0x22]

/-- The value of a hexadecimal digit (either case), if `c` is one. -/
def hexValue (c : Nat) : Option Nat :=
  if 0x30 ≤ c ∧ c ≤ 0x39 then some (c - 0x30)
  else if 0x61 ≤ c ∧ c ≤ 0x66 then some (c - 0x61 + 10)
  else if 0x41 ≤ c ∧ c ≤ 0x46 then some (c - 0x41 + 10)
  else none

/-- Model of `getu4` of `encoding/json`: the number written by the four
hexadecimal digits after `\u`, if `s` starts with four such digits. -/
def getu4 : GoString → Option Nat
  | a :: b :: c :: d :: _ =>
    match hexValue a, hexValue b, hexValue c, hexValue d with
    | some x, some y, some z, some w => some (((x * 16 + y) * 16 + z) * 16 + w)
    | _, _, _, _ => none
  | _ => none

/-- The rune of a `\uXXXX` escape whose number is the surrogate `r1`, read with
the text `s` that follows it: the rune of the pair when `r1` is a high
surrogate and `s` starts with the escape of a low surrogate (then the second
escape, six bytes, is consumed as well), U+FFFD otherwise.  The second
component is the number of bytes of `s` consumed. -/
def surrogatePair (r1 : Nat) (s : GoString) : Nat × Nat :=
  match s with
  | 0x5C :: 0x75 :: digits =>
    match getu4 digits with
    | some r2 =>
      if r1 < 0xDC00 ∧ 0xDC00 ≤ r2 ∧ r2 < 0xE000 then
        ((r1 - 0xD800) * 1024 + (r2 - 0xDC00) + 0x10000, 6)
      else (runeError, 0)
    | none => (runeError, 0)
  | _ => (runeError, 0)

/-- Model of the loop of `unquoteBytes` of `encoding/json`, reading the body of
a string literal up to its closing quote: the decoded string and the input
after the closing quote.  `acc` is what has been decoded so far; `fuel` bounds
the number of steps. -/
def lexString : Nat → GoString → GoString → Option (GoString × GoString)
  | 0, _, _ => none
  | _ + 1, [], _ => none
  | fuel + 1, c :: rest, acc =>
    if c = 0x22 then some (acc, rest)
    else if c = 0x5C then
      match rest with
      | [] => none
      | e :: rest2 =>
        if e = 0x22 ∨ e = 0x5C ∨ e = 0x2F then lexString fuel rest2 (acc ++ [e])
        else if e = 0x62 then lexString fuel rest2 (acc ++ [0x08])
        else if e = 0x66 then lexString fuel rest2 (acc ++ [0x0C])
        else if e = 0x6E then lexString fuel rest2 (acc ++ [0x0A])
        else if e = 0x72 then lexString fuel rest2 (acc ++ [0x0D])
        else if e = 0x74 then lexString fuel rest2 (acc ++ [0x09])
        else if e = 0x75 then
          match getu4 rest2 with
          | none => none
          | some rr =>
            if 0xD800 ≤ rr ∧ rr < 0xE000 then
              lexString fuel (rest2.drop (4 + (surrogatePair rr (rest2.drop 4)).2))
                (acc ++ encodeRune (surrogatePair rr (rest2.drop 4)).1)
            else lexString fuel (rest2.drop 4) (acc ++ encodeRune rr)
        else none
    else if c < 0x20 then none
    else if c < 0x80 then lexString fuel rest (acc ++ [c])
    else
      lexString fuel ((c :: rest).drop (decodeRune (c :: rest)).2)
        (acc ++ encodeRune (decodeRune (c :: rest)).1)

/-- The tokens of a JSON text. -/
inductive Token where
  | beginArray
  | endArray
  | beginObject
  | endObject
  | comma
  | colon
  | null
  | true
  | false
  | string (s : GoString)
  | number (text : GoString)
deriving DecidableEq, Repr

/-- Whether `c` can occur in a JSON number. -/
def isNumberByte (c : Nat) : Bool :=
  decide ((0x30 ≤ c ∧ c ≤ 0x39) ∨ c = 0x2B ∨ c = 0x2D ∨ c = 0x2E ∨ c = 0x45 ∨ c = 0x65)

/-- Whether `c` is a decimal digit. -/
def isDigit (c : Nat) : Bool := decide (0x30 ≤ c ∧ c ≤ 0x39)

/-- The exponent part of a JSON number, after `e` or `E`: an optional sign and
at least one digit. -/
def validExponent (s : GoString) : Bool :=
  match s with
  | [] => false
  | c :: rest =>
    if c = 0x2B ∨ c = 0x2D then !rest.isEmpty && rest.all isDigit
    else (c :: rest).all isDigit

/-- What may follow the integer part of a JSON number: nothing, a fraction, an
exponent, or a fraction and an exponent. -/
def validTail (s : GoString) : Bool :=
  match s with
  | [] => true
  | c :: rest =>
    if c = 0x2E then
      !(rest.takeWhile isDigit).isEmpty &&
        (match rest.dropWhile isDigit with
         | [] => true
         | e :: rest2 => (e = 0x45 ∨ e = 0x65) && validExponent rest2)
    else if c = 0x45 ∨ c = 0x65 then validExponent rest
    else false

/-- Whether `s` is a JSON number: an optional minus sign, `0` or a digit sequence
without leading zero, then an optional fraction and exponent. -/
def validNumber (s : GoString) : Bool :=
  match (match s with
         | 0x2D :: rest => rest
         | _ => s) with
  | [] => false
  | c :: rest =>
    if c = 0x30 then validTail rest
    else if 0x31 ≤ c ∧ c ≤ 0x39 then validTail (rest.dropWhile isDigit)
    else false

/-- The lexer: the tokens of a JSON text, or `none` when some byte cannot start a
token.  The first argument is the number of bytes still to pass over: they
belong to the token read last. -/
def lex : Nat → GoString → Option (List Token)
  | _, [] => some []
  | skip + 1, _ :: rest => lex skip rest
  | 0, c :: rest =>
    if c = 0x20 ∨ c = 0x09 ∨ c = 0x0A ∨ c = 0x0D then lex 0 rest
    else if c = 0x5B then (lex 0 rest).map (Token.beginArray :: ·)
    else if c = 0x5D then (lex 0 rest).map (Token.endArray :: ·)
    else if c = 0x7B then (lex 0 rest).map (Token.beginObject :: ·)
    else if c = 0x7D then (lex 0 rest).map (Token.endObject :: ·)
    else if c = 0x2C then (lex 0 rest).map (Token.comma :: ·)
    else if c = 0x3A then (lex 0 rest).map (Token.colon :: ·)
    else if c = 0x22 then
      match lexString (rest.length + 1) rest [] with
      | none => none
      | some (s, after) => (lex (rest.length - after.length) rest).map (Token.string s :: ·)
    else if (c :: rest).take 4 = lit "null" then (lex 3 rest).map (Token.null :: ·)
    else if (c :: rest).take 4 = lit "true" then (lex 3 rest).map (Token.true :: ·)
    else if (c :: rest).take 5 = lit "false" then (lex 4 rest).map (Token.false :: ·)
    else if isNumberByte c then
      if validNumber ((c :: rest).takeWhile isNumberByte) then
        (lex (rest.takeWhile isNumberByte).length rest).map
          (Token.number ((c :: rest).takeWhile isNumberByte) :: ·)
      else none
    else none

/-- The line break of `json.Indent` with an empty line start and the indent
`"  "`: a newline and `depth` copies of the indent. -/
def newline (depth : Nat) : GoString :=
  lit "\n" ++ (List.replicate depth (lit "  ")).flatten

/-- One member of an object in the indented output: the key, a colon, a space
and the value. -/
def member (key : String) (value : GoString) : GoString :=
  quote (lit key) ++ lit ": " ++ value

/-- An array in the indented output with its elements (not empty) at `depth + 1`. -/
def arrayText (depth : Nat) (elems : List GoString) : GoString :=
  lit "[" ++ newline (depth + 1) ++
    List.intercalate (lit "," ++ newline (depth + 1)) elems ++ newline depth ++ lit "]"

/-- An object in the indented output with its members (not empty) at `depth + 1`. -/
def objectText (depth : Nat) (members : List GoString) : GoString :=
  lit "\x7b" ++ newline (depth + 1) ++
    List.intercalate (lit "," ++ newline (depth + 1)) members ++ newline depth ++ lit "\x7d"

/-- The indented JSON text of a `PVDetails` that starts at `depth`. -/
def marshalPVDetails (depth : Nat) (d : PVDetails) : GoString :=
  objectText depth
    [member "PVCName" (quote d.PVCName), member "PVName" (quote d.PVName),
      member "PVZone" (quote d.PVZone)]

/-- The indented JSON text of a `[]PVDetails`: `null` for the nil slice. -/
def marshalPVInfo (depth : Nat) (pvInfo : List PVDetails) : GoString :=
  if pvInfo.isEmpty then lit "null"
  else arrayText depth (pvInfo.map (marshalPVDetails (depth + 1)))

/-- The indented JSON text of a `PodInfo` that starts at `depth`. -/
def marshalPodInfo (depth : Nat) (info : PodInfo) : GoString :=
  objectText depth
    [member "PodName" (quote info.PodName), member "NodeName" (quote info.NodeName),
      member "NodeZone" (quote info.NodeZone),
      member "PVInfo" (marshalPVInfo (depth + 1) info.PVInfo),
      member "ZoneMatched" (if info.ZoneMatched then lit "true" else lit "false")]

/-- Model of `json.MarshalIndent(podInfos, "", "  ")` for a `[]PodInfo`. -/
def MarshalIndent (podInfos : List PodInfo) : Except GoString GoString :=
  if podInfos.isEmpty then .ok (lit "null")
  else .ok (arrayText 0 (podInfos.map (marshalPodInfo 1)))

/-- A pushdown check that the tokens start with one JSON value of any kind; the
tokens after that value.  The stack holds, for every array or object that is
open, `true` for an object; `expect` tells what may come next. -/
inductive Expect where
  | value
  | valueOrEndArray
  | keyOrEndObject
  | key
  | colon
  | commaOrEnd
deriving DecidableEq, Repr

/-- Skips one JSON value, whatever its kind, checking its syntax: the tokens
after the value. -/
def skipValue : Expect → List Bool → List Token → Option (List Token)
  | _, _, [] => none
  | expect, stack, tok :: rest =>
    let afterValue : Option (List Token) :=
      match stack with
      | [] => some rest
      | _ => skipValue .commaOrEnd stack rest
    match expect, tok with
    | .value, .null | .value, .true | .value, .false | .value, .string _
    | .value, .number _ => afterValue
    | .valueOrEndArray, .null | .valueOrEndArray, .true | .valueOrEndArray, .false
    | .valueOrEndArray, .string _ | .valueOrEndArray, .number _ => afterValue
    | .value, .beginArray | .valueOrEndArray, .beginArray =>
      skipValue .valueOrEndArray (false :: stack) rest
    | .value, .beginObject | .valueOrEndArray, .beginObject =>
      skipValue .keyOrEndObject (true :: stack) rest
    | .valueOrEndArray, .endArray =>
      match stack with
      | false :: [] => some rest
      | false :: outer => skipValue .commaOrEnd outer rest
      | _ => none
    | .keyOrEndObject, .endObject =>
      match stack with
      | true :: [] => some rest
      | true :: outer => skipValue .commaOrEnd outer rest
      | _ => none
    | .keyOrEndObject, .string _ | .key, .string _ => skipValue .colon stack rest
    | .colon, .colon => skipValue .value stack rest
    | .commaOrEnd, .comma =>
      match stack with
      | true :: _ => skipValue .key stack rest
      | false :: _ => skipValue .value stack rest
      | [] => none
    | .commaOrEnd, .endArray =>
      match stack with
      | false :: [] => some rest
      | false :: outer => skipValue .commaOrEnd outer rest
      | _ => none
    | .commaOrEnd, .endObject =>
      match stack with
      | true :: [] => some rest
      | true :: outer => skipValue .commaOrEnd outer rest
      | _ => none
    | _, _ => none

/-- Decodes a JSON value into a Go `string` variable holding `old`: a string
sets it, `null` leaves it, anything else is an error. -/
def decodeString (old : GoString) : List Token → Option (GoString × List Token)
  | .string s :: rest => some (s, rest)
  | .null :: rest => some (old, rest)
  | _ => none

/-- Decodes a JSON value into a Go `bool` variable holding `old`. -/
def decodeBool (old : Bool) : List Token → Option (Bool × List Token)
  | .true :: rest => some (true, rest)
  | .false :: rest => some (false, rest)
  | .null :: rest => some (old, rest)
  | _ => none

/-- Decodes the value of the member `key` into the field of that name of `d`;
the value of a key that names no field is skipped. -/
def decodePVField (d : PVDetails) (key : GoString) (tokens : List Token) :
    Option (PVDetails × List Token) :=
  if key = lit "PVCName" then
    (decodeString d.PVCName tokens).map (fun r => ({ d with PVCName := r.1 }, r.2))
  else if key = lit "PVName" then
    (decodeString d.PVName tokens).map (fun r => ({ d with PVName := r.1 }, r.2))
  else if key = lit "PVZone" then
    (decodeString d.PVZone tokens).map (fun r => ({ d with PVZone := r.1 }, r.2))
  else (skipValue .value [] tokens).map (fun rest => (d, rest))

/-- The members of an object, after its opening brace, decoded into `d`. -/
def decodePVMembers : Nat → PVDetails → List Token → Option (PVDetails × List Token)
  | 0, _, _ => none
  | fuel + 1, d, .string key :: .colon :: tokens =>
    match decodePVField d key tokens with
    | some (d2, .comma :: rest) => decodePVMembers fuel d2 rest
    | some (d2, .endObject :: rest) => some (d2, rest)
    | _ => none
  | _ + 1, _, _ => none

/-- Decodes a JSON value into a `PVDetails` variable holding the zero value: an
object sets the fields it names, `null` leaves the variable as it is. -/
def decodePVDetails (fuel : Nat) : List Token → Option (PVDetails × List Token)
  | .beginObject :: .endObject :: rest => some ({ PVCName := [], PVName := [], PVZone := [] }, rest)
  | .beginObject :: tokens =>
    decodePVMembers fuel { PVCName := [], PVName := [], PVZone := [] } tokens
  | .null :: rest => some ({ PVCName := [], PVName := [], PVZone := [] }, rest)
  | _ => none

/-- The elements of an array of `PVDetails`, after its opening bracket. -/
def decodePVElems : Nat → List PVDetails → List Token → Option (List PVDetails × List Token)
  | 0, _, _ => none
  | fuel + 1, acc, tokens =>
    match decodePVDetails fuel tokens with
    | some (d, .comma :: rest) => decodePVElems fuel (acc ++ [d]) rest
    | some (d, .endArray :: rest) => some (acc ++ [d], rest)
    | _ => none

/-- Decodes a JSON value into a `[]PVDetails` variable: an array sets it, `null`
sets it to nil. -/
def decodePVInfo (fuel : Nat) : List Token → Option (List PVDetails × List Token)
  | .beginArray :: .endArray :: rest => some ([], rest)
  | .beginArray :: tokens => decodePVElems fuel [] tokens
  | .null :: rest => some ([], rest)
  | _ => none

/-- Decodes the value of the member `key` into the field of that name of `info`. -/
def decodePodField (fuel : Nat) (info : PodInfo) (key : GoString) (tokens : List Token) :
    Option (PodInfo × List Token) :=
  if key = lit "PodName" then
    (decodeString info.PodName tokens).map (fun r => ({ info with PodName := r.1 }, r.2))
  else if key = lit "NodeName" then
    (decodeString info.NodeName tokens).map (fun r => ({ info with NodeName := r.1 }, r.2))
  else if key = lit "NodeZone" then
    (decodeString info.NodeZone tokens).map (fun r => ({ info with NodeZone := r.1 }, r.2))
  else if key = lit "PVInfo" then
    (decodePVInfo fuel tokens).map (fun r => ({ info with PVInfo := r.1 }, r.2))
  else if key = lit "ZoneMatched" then
    (decodeBool info.ZoneMatched tokens).map (fun r => ({ info with ZoneMatched := r.1 }, r.2))
  else (skipValue .value [] tokens).map (fun rest => (info, rest))

/-- The members of an object, after its opening brace, decoded into `info`. -/
def decodePodMembers : Nat → PodInfo → List Token → Option (PodInfo × List Token)
  | 0, _, _ => none
  | fuel + 1, info, .string key :: .colon :: tokens =>
    match decodePodField fuel info key tokens with
    | some (info2, .comma :: rest) => decodePodMembers fuel info2 rest
    | some (info2, .endObject :: rest) => some (info2, rest)
    | _ => none
  | _ + 1, _, _ => none

/-- The zero value of `PodInfo`. -/
def zeroPodInfo : PodInfo :=
  { PodName := [], NodeName := [], NodeZone := [], PVInfo := [], ZoneMatched := false }

/-- Decodes a JSON value into a `PodInfo` variable holding the zero value. -/
def decodePodInfo (fuel : Nat) : List Token → Option (PodInfo × List Token)
  | .beginObject :: .endObject :: rest => some (zeroPodInfo, rest)
  | .beginObject :: tokens => decodePodMembers fuel zeroPodInfo tokens
  | .null :: rest => some (zeroPodInfo, rest)
  | _ => none

/-- The elements of an array of `PodInfo`, after its opening bracket. -/
def decodePodElems : Nat → List PodInfo → List Token → Option (List PodInfo × List Token)
  | 0, _, _ => none
  | fuel + 1, acc, tokens =>
    match decodePodInfo fuel tokens with
    | some (info, .comma :: rest) => decodePodElems fuel (acc ++ [info]) rest
    | some (info, .endArray :: rest) => some (acc ++ [info], rest)
    | _ => none

/-- Decodes a JSON value into a nil `[]PodInfo` variable. -/
def decodePodInfos (fuel : Nat) : List Token → Option (List PodInfo × List Token)
  | .beginArray :: .endArray :: rest => some ([], rest)
  | .beginArray :: tokens => decodePodElems fuel [] tokens
  | .null :: rest => some ([], rest)
  | _ => none

/-- Model of `json.Unmarshal(text, &podInfos)` for a nil `podInfos []PodInfo`:
the decoded sequence, or `none` when `text` is not one JSON value that fits the
type. -/
def Unmarshal (text : GoString) : Option (List PodInfo) :=
  match lex 0 text with
  | none => none
  | some tokens =>
    match decodePodInfos tokens.length tokens with
    | some (podInfos, []) => some podInfos
    | _ => none

/-! ## Rendering (`main.go` lines 123-154) -/

/-- The verb `%t` of `fmt`: the word `true` or `false`. -/
def fmtBool (b : Bool) : GoString :=
  if b then lit "true" else lit "false"

/-- The text of one `fmt.Printf` call of `printText` (line 133). -/
def textLine (info : PodInfo) : GoString :=
  lit "Pod: " ++ info.PodName ++ lit ", Node: " ++ info.NodeName ++
    lit ", Node Zone: " ++ info.NodeZone ++ lit ", Zone Matched: " ++
    fmtBool info.ZoneMatched ++ lit "\n"

/-- Model of `printText` (lines 131-135): standard output after the call, given
standard output before it. -/
def printText : List PodInfo → GoString → GoString
  | [], stdout => stdout
  | info :: rest, stdout => printText rest (stdout ++ textLine info)

/-- A `tabwriter.Writer`: the text handed to it so far (it is formatted on `Flush`). -/
structure TabWriter where
  text : GoString
deriving DecidableEq, Repr

/-- Model of `fmt.Fprintf(w, ...)` and `fmt.Fprintln(w, ...)` on a tab writer: the
text is appended to what the writer holds.  The only errors such a write reports
are those of the underlying standard output, which accepts every write here. -/
def TabWriter.Fprint (w : TabWriter) (s : GoString) : Except GoString TabWriter :=
  .ok { text := w.text ++ s }

/-- The header line of the table (line 140), with the newline `Fprintln` adds. -/
def tableHeader : GoString :=
  lit "POD\tNODE\tNODE ZONE\tZONE MATCHED\tPVC\tPV\tPV ZONE" ++ lit "\n"

/-- The text of one `fmt.Fprintf` call of `printTable` (line 147). -/
def tableRow (info : PodInfo) (pvInfo : PVDetails) : GoString :=
  info.PodName ++ lit "\t" ++ info.NodeName ++ lit "\t" ++ info.NodeZone ++ lit "\t" ++
    fmtBool info.ZoneMatched ++ lit "\t" ++ pvInfo.PVCName ++ lit "\t" ++
    pvInfo.PVName ++ lit "\t" ++ pvInfo.PVZone ++ lit "\n"

/-- The loop over `info.PVInfo` in `printTable` (lines 146-151); an error is the
early `return`. -/
def rowLoop (info : PodInfo) : List PVDetails → TabWriter → Except GoString TabWriter
  | [], w => .ok w
  | pvInfo :: rest, w =>
    match w.Fprint (tableRow info pvInfo) with
    | .error err => .error err
    | .ok w => rowLoop info rest w

/-- The loop over `podInfos` in `printTable` (lines 145-152). -/
def tableLoop : List PodInfo → TabWriter → Except GoString TabWriter
  | [], w => .ok w
  | info :: rest, w =>
    match rowLoop info info.PVInfo w with
    | .error err => .error err
    | .ok w => tableLoop rest w

/-- Model of `printTable` (lines 137-154).  `tabfmt` is the formatting that a
`tabwriter.Writer` initialised with `Init(os.Stdout, 0, 8, 0, '\t', 0)` applies to
the text it was handed; the library is not part of the program and is a
parameter.  The result is standard output after the call. -/
def printTable (tabfmt : GoString → GoString) (podInfos : List PodInfo)
    (stdout : GoString) : GoString :=
  let w : TabWriter := { text := [] }
  match w.Fprint tableHeader with
  | .error _ => stdout
  | .ok w =>
    match tableLoop podInfos w with
    | .error _ => stdout
    | .ok w => stdout ++ tabfmt w.text

/-- Model of `printJSON` (lines 123-129): standard output after the call, or the
panic message. -/
def printJSON (podInfos : List PodInfo) (stdout : GoString) : Except GoString GoString :=
  match MarshalIndent podInfos with
  | .error err => .error err
  | .ok data => .ok (stdout ++ data ++ lit "\n")

/-- The `switch outputFormat` of `main` (lines 113-120). -/
def render (tabfmt : GoString → GoString) (outputFormat : GoString) (podInfos : List PodInfo)
    (stdout : GoString) : Except GoString GoString :=
  if outputFormat = lit "json" then printJSON podInfos stdout
  else if outputFormat = lit "text" then .ok (printText podInfos stdout)
  else .ok (printTable tabfmt podInfos stdout)

/-- What a run leaves behind: standard output, the panic message if the run
panicked, and the lookups made. -/
structure Outcome where
  stdout : GoString
  panicked : Option GoString
  calls : List Call
deriving DecidableEq, Repr

/-- Model of `main` from the listed pods on (lines 72-120): the per-pod loop,
then the chosen renderer.  `tabfmt` is the formatting of the tab writer, see
`printTable`. -/
def main (tabfmt : GoString → GoString) (c : Clientset) (outputFormat : GoString)
    (pods : List Pod) : Outcome :=
  match podLoop c pods [] [] with
  | ⟨.error err, calls⟩ => { stdout := [], panicked := some err, calls := calls }
  | ⟨.ok podInfos, calls⟩ =>
    match render tabfmt outputFormat podInfos [] with
    | .error err => { stdout := [], panicked := some err, calls := calls }
    | .ok stdout => { stdout := stdout, panicked := none, calls := calls }

/-! ## Vocabulary of the statements -/

/-- The claim sources of the volumes that are claim-backed (non-nil
`PersistentVolumeClaim`), in declaration order. -/
def claimSources (volumes : List Volume) : List PersistentVolumeClaimVolumeSource :=
  volumes.filterMap (fun volume => volume.PersistentVolumeClaim)

/-- The lookups behind a list of resolved volumes: for each one the claim lookup,
then the volume lookup. -/
def detailCalls (ns : GoString) (details : List PVDetails) : List Call :=
  details.flatMap (fun d => [Call.claim ns d.PVCName, Call.volume d.PVName])

/-- The rows of the table: one per (pod, volume) pair, pods in input order and
the volumes of a pod in `PVInfo` order. -/
def tableRows (podInfos : List PodInfo) : List GoString :=
  podInfos.flatMap (fun info => info.PVInfo.map (tableRow info))

/-- The text `text` is read as the tokens `tokens`, whatever follows it. -/
def LexesTo (text : GoString) (tokens : List Token) : Prop :=
  ∀ rest : GoString, lex 0 (text ++ rest) = (lex 0 rest).map (tokens ++ ·)

/-- The tokens of one member of an object. -/
def memberTokens (key : String) (value : List Token) : List Token :=
  [Token.string (lit key), Token.colon] ++ value

/-- The tokens of an array with the given elements. -/
def arrayTokens (elems : List (List Token)) : List Token :=
  [Token.beginArray] ++ List.intercalate [Token.comma] elems ++ [Token.endArray]

/-- The tokens of an object with the given members. -/
def objectTokens (members : List (List Token)) : List Token :=
  [Token.beginObject] ++ List.intercalate [Token.comma] members ++ [Token.endObject]

/-- The tokens of the JSON text of a `PVDetails`. -/
def pvDetailsTokens (d : PVDetails) : List Token :=
  objectTokens
    [memberTokens "PVCName" [Token.string d.PVCName], memberTokens "PVName" [Token.string d.PVName],
      memberTokens "PVZone" [Token.string d.PVZone]]

/-- The tokens of the JSON text of a `[]PVDetails`. -/
def pvInfoTokens (pvInfo : List PVDetails) : List Token :=
  if pvInfo.isEmpty then [Token.null] else arrayTokens (pvInfo.map pvDetailsTokens)

/-- The tokens of the JSON text of a `PodInfo`. -/
def podInfoTokens (info : PodInfo) : List Token :=
  objectTokens
    [memberTokens "PodName" [Token.string info.PodName],
      memberTokens "NodeName" [Token.string info.NodeName],
      memberTokens "NodeZone" [Token.string info.NodeZone],
      memberTokens "PVInfo" (pvInfoTokens info.PVInfo),
      memberTokens "ZoneMatched" [if info.ZoneMatched then Token.true else Token.false]]

/-- The tokens of the JSON text of a `[]PodInfo`. -/
def podInfosTokens (podInfos : List PodInfo) : List Token :=
  if podInfos.isEmpty then [Token.null] else arrayTokens (podInfos.map podInfoTokens)

/-- Every string field of the record is valid UTF-8. -/
def PVDetails.valid (d : PVDetails) : Bool :=
  validUTF8 d.PVCName && validUTF8 d.PVName && validUTF8 d.PVZone

/-- Every string field of the record and of its volumes is valid UTF-8. -/
def PodInfo.valid (info : PodInfo) : Bool :=
  validUTF8 info.PodName && validUTF8 info.NodeName && validUTF8 info.NodeZone &&
    info.PVInfo.all PVDetails.valid

/-! ## An example cluster, for concrete runs -/

/-- The labels of a node or volume in `zone`: the zone label between two other
labels. -/
def zoneLabels (zone : GoString) : Labels :=
  [(lit "kubernetes.io/os", lit "linux"), (lit "topology.kubernetes.io/zone", zone),
    (lit "topology.kubernetes.io/region", lit "us-east-1")]

/-- Labels without a zone label. -/
def otherLabels : Labels :=
  [(lit "kubernetes.io/os", lit "linux"), (lit "topology.kubernetes.io/region", lit "us-east-1")]

/-- An example cluster.  Nodes: `node-a` in zone `us-east-1a`, `node-b` in zone
`us-east-1b`, `node-x` without zone label.  Claims, in every namespace: `data-a`
bound to `pv-a`, `data-x` bound to `pv-x`, `data-pending` not bound (empty volume
name).  Volumes: `pv-a` in zone `us-east-1a`, `pv-x` without zone label.  Every
other lookup, in particular a lookup of the empty name, fails. -/
def exampleCluster : Clientset :=
  { getNode := fun name =>
      if name = lit "node-a" then .ok { Labels := zoneLabels (lit "us-east-1a") }
      else if name = lit "node-b" then .ok { Labels := zoneLabels (lit "us-east-1b") }
      else if name = lit "node-x" then .ok { Labels := otherLabels }
      else .error (lit "not found")
    getPVC := fun _ name =>
      if name = lit "data-a" then .ok { Spec := { VolumeName := lit "pv-a" } }
      else if name = lit "data-x" then .ok { Spec := { VolumeName := lit "pv-x" } }
      else if name = lit "data-pending" then .ok { Spec := { VolumeName := [] } }
      else .error (lit "not found")
    getPV := fun name =>
      if name = lit "pv-a" then .ok { Labels := zoneLabels (lit "us-east-1a") }
      else if name = lit "pv-x" then .ok { Labels := otherLabels }
      else .error (lit "not found") }

/-- A second cluster, the example cluster except that it holds a node and a
volume named `""`: the node in zone `us-east-1a`, the volume in zone
`us-east-1b`. -/
def lenientCluster : Clientset :=
  { getNode := fun name =>
      if name = [] then .ok { Labels := zoneLabels (lit "us-east-1a") }
      else exampleCluster.getNode name
    getPVC := exampleCluster.getPVC
    getPV := fun name =>
      if name = [] then .ok { Labels := zoneLabels (lit "us-east-1b") }
      else exampleCluster.getPV name }

/-- A volume backed by the claim `claimName`. -/
def claimVolume (name claimName : GoString) : Volume :=
  { Name := name, PersistentVolumeClaim := some { ClaimName := claimName } }

/-- A volume of another kind (a config map, a secret, ...). -/
def otherVolume (name : GoString) : Volume :=
  { Name := name, PersistentVolumeClaim := none }

/-- A pod in namespace `default`. -/
def examplePod (name nodeName : GoString) (volumes : List Volume) : Pod :=
  { Name := name, Namespace := lit "default", Spec := { NodeName := nodeName, Volumes := volumes } }

/-- A pod on `node-a` with a config volume and the claim `data-a`. -/
def podA : Pod :=
  examplePod (lit "pod-a") (lit "node-a")
    [otherVolume (lit "config"), claimVolume (lit "data") (lit "data-a")]

/-- A pod on `node-b` with the claim `data-a`. -/
def podB : Pod :=
  examplePod (lit "pod-b") (lit "node-b") [claimVolume (lit "data") (lit "data-a")]

/-- A pod on the node `node-x`, which has no zone label, with the claim `data-x`,
whose volume has no zone label either. -/
def podX : Pod :=
  examplePod (lit "pod-x") (lit "node-x") [claimVolume (lit "data") (lit "data-x")]

/-- An unscheduled pod (empty node name) without volumes. -/
def podUnscheduled : Pod :=
  examplePod (lit "pod-c") [] []

/-- A pod on `node-a` whose only claim, `data-pending`, is not bound. -/
def podPending : Pod :=
  examplePod (lit "pod-d") (lit "node-a") [claimVolume (lit "data") (lit "data-pending")]

/-- A pod on `node-b` with the claim `data-a`, a config volume, the claim
`data-pending`, which is not bound, and the claim `data-x`. -/
def podMixed : Pod :=
  examplePod (lit "pod-f") (lit "node-b")
    [claimVolume (lit "data") (lit "data-a"), otherVolume (lit "config"),
      claimVolume (lit "scratch") (lit "data-pending"), claimVolume (lit "logs") (lit "data-x")]

/-- A pod on `node-a` with the claim `data-a`, a config volume and the claim
`data-x`. -/
def podTwoClaims : Pod :=
  examplePod (lit "pod-g") (lit "node-a")
    [claimVolume (lit "data") (lit "data-a"), otherVolume (lit "config"),
      claimVolume (lit "logs") (lit "data-x")]

/-- A pod on `node-a` with a config volume only. -/
def podPlain : Pod :=
  examplePod (lit "pod-e") (lit "node-a") [otherVolume (lit "config")]

/-! ## Lemmas about the loops -/

theorem volumeLoop_cons_ok (c : Clientset) (pod : Pod) (volume : Volume) (rest : List Volume)
    (podInfo : PodInfo) (calls : List Call) (src : PersistentVolumeClaimVolumeSource)
    (pvc : PersistentVolumeClaim) (pv : PersistentVolume)
    (hsrc : volume.PersistentVolumeClaim = some src)
    (hpvc : c.getPVC pod.Namespace src.ClaimName = .ok pvc)
    (hpv : c.getPV pvc.Spec.VolumeName = .ok pv) :
    volumeLoop c pod (volume :: rest) podInfo calls =
      volumeLoop c pod rest
        { podInfo with
          PVInfo := podInfo.PVInfo ++ [{ PVCName := src.ClaimName, PVName := pvc.Spec.VolumeName,
                                         PVZone := pv.Labels.get zoneKey }]
          ZoneMatched := podInfo.ZoneMatched ||
            decide (pv.Labels.get zoneKey = podInfo.NodeZone) }
        (calls ++ [Call.claim pod.Namespace src.ClaimName, Call.volume pvc.Spec.VolumeName]) := by
  simp only [volumeLoop, hsrc, hpvc, hpv]
  by_cases hz : pv.Labels.get zoneKey = podInfo.NodeZone
  · simp [hz]
  · simp [hz]

/-- What one successfully resolved claim contributes. -/
theorem volumeLoop_spec (c : Clientset) (pod : Pod) (volumes : List Volume) :
    ∀ (podInfo : PodInfo) (calls : List Call),
      ∃ made : List Call,
        (volumeLoop c pod volumes podInfo calls).calls = calls ++ made ∧
        (∀ call ∈ made, ∃ ns name, call = Call.claim ns name ∨ call = Call.volume name) ∧
        ((∀ call ∈ made, c.fails call = false) →
          ∃ details : List PVDetails,
            (volumeLoop c pod volumes podInfo calls).value =
              .ok { podInfo with
                    PVInfo := podInfo.PVInfo ++ details
                    ZoneMatched := podInfo.ZoneMatched ||
                      details.any (fun d => decide (d.PVZone = podInfo.NodeZone)) } ∧
            made = detailCalls pod.Namespace details ∧
            List.Forall₂ (fun src d => ∃ pvc pv,
                c.getPVC pod.Namespace src.ClaimName = .ok pvc ∧
                c.getPV pvc.Spec.VolumeName = .ok pv ∧
                d = { PVCName := src.ClaimName, PVName := pvc.Spec.VolumeName,
                      PVZone := pv.Labels.get zoneKey })
              (claimSources volumes) details) ∧
        ((∃ call ∈ made, c.fails call = true) →
          isError (volumeLoop c pod volumes podInfo calls).value = true) := by
  induction volumes with
  | nil =>
    intro podInfo calls
    refine ⟨[], by simp [volumeLoop], by simp, ?_, by simp⟩
    intro _
    exact ⟨[], by simp [volumeLoop], by simp [detailCalls], by simp [claimSources]⟩
  | cons volume rest ih =>
    intro podInfo calls
    cases hsrc : volume.PersistentVolumeClaim with
    | none =>
      obtain ⟨made, h1, h2, h3, h4⟩ := ih podInfo calls
      refine ⟨made, by simp [volumeLoop, hsrc, h1], h2, ?_, ?_⟩
      · intro hok
        obtain ⟨details, hv, hm, hf⟩ := h3 hok
        exact ⟨details, by simp [volumeLoop, hsrc, hv], hm,
          by simpa [claimSources, hsrc] using hf⟩
      · intro hbad
        simpa [volumeLoop, hsrc] using h4 hbad
    | some src =>
      cases hpvc : c.getPVC pod.Namespace src.ClaimName with
      | error err =>
        refine ⟨[Call.claim pod.Namespace src.ClaimName], by simp [volumeLoop, hsrc, hpvc],
          ?_, ?_, ?_⟩
        · intro call hc
          simp at hc
          exact ⟨pod.Namespace, src.ClaimName, Or.inl hc⟩
        · intro hok
          have := hok _ (List.mem_singleton.mpr rfl)
          simp [Clientset.fails, hpvc, isError] at this
        · intro _
          simp [volumeLoop, hsrc, hpvc, isError]
      | ok pvc =>
        cases hpv : c.getPV pvc.Spec.VolumeName with
        | error err =>
          refine ⟨[Call.claim pod.Namespace src.ClaimName, Call.volume pvc.Spec.VolumeName],
            by simp [volumeLoop, hsrc, hpvc, hpv], ?_, ?_, ?_⟩
          · intro call hc
            simp at hc
            rcases hc with hc | hc
            · exact ⟨pod.Namespace, src.ClaimName, Or.inl hc⟩
            · exact ⟨[], pvc.Spec.VolumeName, Or.inr hc⟩
          · intro hok
            have := hok (Call.volume pvc.Spec.VolumeName) (by simp)
            simp [Clientset.fails, hpv, isError] at this
          · intro _
            simp [volumeLoop, hsrc, hpvc, hpv, isError]
        | ok pv =>
          have hstep := volumeLoop_cons_ok c pod volume rest podInfo calls src pvc pv hsrc hpvc hpv
          obtain ⟨made, h1, h2, h3, h4⟩ := ih
            { podInfo with
              PVInfo := podInfo.PVInfo ++ [{ PVCName := src.ClaimName,
                                             PVName := pvc.Spec.VolumeName,
                                             PVZone := pv.Labels.get zoneKey }]
              ZoneMatched := podInfo.ZoneMatched ||
                decide (pv.Labels.get zoneKey = podInfo.NodeZone) }
            (calls ++ [Call.claim pod.Namespace src.ClaimName, Call.volume pvc.Spec.VolumeName])
          refine ⟨Call.claim pod.Namespace src.ClaimName ::
              Call.volume pvc.Spec.VolumeName :: made, by simp [hstep, h1], ?_, ?_, ?_⟩
          · intro call hc
            simp only [List.mem_cons] at hc
            rcases hc with hc | hc | hc
            · exact ⟨pod.Namespace, src.ClaimName, Or.inl hc⟩
            · exact ⟨[], pvc.Spec.VolumeName, Or.inr hc⟩
            · exact h2 call hc
          · intro hok
            obtain ⟨details, hv, hm, hf⟩ := h3 (fun call hc => hok call (by simp [hc]))
            refine ⟨{ PVCName := src.ClaimName, PVName := pvc.Spec.VolumeName,
                      PVZone := pv.Labels.get zoneKey } :: details, ?_, ?_, ?_⟩
            · rw [hstep, hv]
              simp [Bool.or_assoc]
            · simp [detailCalls, hm]
            · simp only [claimSources, List.filterMap_cons, hsrc]
              exact List.Forall₂.cons ⟨pvc, pv, hpvc, hpv, rfl⟩ hf
          · intro hbad
            rw [hstep]
            apply h4
            obtain ⟨call, hc, hfail⟩ := hbad
            simp only [List.mem_cons] at hc
            rcases hc with hc | hc | hc
            · subst hc
              simp [Clientset.fails, hpvc, isError] at hfail
            · subst hc
              simp [Clientset.fails, hpv, isError] at hfail
            · exact ⟨call, hc, hfail⟩

theorem volumeLoop_from (c : Clientset) (pod : Pod) (volumes : List Volume) :
    ∀ (podInfo : PodInfo) (calls : List Call),
      volumeLoop c pod volumes podInfo calls =
        ⟨(volumeLoop c pod volumes podInfo []).value,
          calls ++ (volumeLoop c pod volumes podInfo []).calls⟩ := by
  induction volumes with
  | nil => intro podInfo calls; simp [volumeLoop]
  | cons volume rest ih =>
    intro podInfo calls
    cases hsrc : volume.PersistentVolumeClaim with
    | none =>
      have h := ih podInfo calls
      simpa [volumeLoop, hsrc] using h
    | some src =>
      cases hpvc : c.getPVC pod.Namespace src.ClaimName with
      | error err => simp [volumeLoop, hsrc, hpvc]
      | ok pvc =>
        cases hpv : c.getPV pvc.Spec.VolumeName with
        | error err => simp [volumeLoop, hsrc, hpvc, hpv]
        | ok pv =>
          rw [volumeLoop_cons_ok c pod volume rest podInfo calls src pvc pv hsrc hpvc hpv,
            volumeLoop_cons_ok c pod volume rest podInfo [] src pvc pv hsrc hpvc hpv, ih]
          conv => rhs; rw [ih]
          simp

theorem podBody_from (c : Clientset) (pod : Pod) (calls : List Call) :
    podBody c pod calls =
      ⟨(podBody c pod []).value, calls ++ (podBody c pod []).calls⟩ := by
  cases hnode : c.getNode pod.Spec.NodeName with
  | error err => simp [podBody, hnode]
  | ok node =>
    simp only [podBody, hnode]
    rw [volumeLoop_from]
    conv => rhs; rw [volumeLoop_from]
    simp

/-- The per-pod body, once the node lookup is settled. -/
theorem podBody_spec (c : Clientset) (pod : Pod) :
    ∃ made : List Call,
      (podBody c pod []).calls = Call.node pod.Spec.NodeName :: made ∧
      (∀ call ∈ made, ∃ ns name, call = Call.claim ns name ∨ call = Call.volume name) ∧
      ((∀ call ∈ (podBody c pod []).calls, c.fails call = false) →
        ∃ (node : Node) (details : List PVDetails),
          c.getNode pod.Spec.NodeName = .ok node ∧
          (podBody c pod []).value =
            .ok { PodName := pod.Name
                  NodeName := pod.Spec.NodeName
                  NodeZone := node.Labels.get zoneKey
                  PVInfo := details
                  ZoneMatched :=
                    details.any (fun d => decide (d.PVZone = node.Labels.get zoneKey)) } ∧
          made = detailCalls pod.Namespace details ∧
          List.Forall₂ (fun src d => ∃ pvc pv,
              c.getPVC pod.Namespace src.ClaimName = .ok pvc ∧
              c.getPV pvc.Spec.VolumeName = .ok pv ∧
              d = { PVCName := src.ClaimName, PVName := pvc.Spec.VolumeName,
                    PVZone := pv.Labels.get zoneKey })
            (claimSources pod.Spec.Volumes) details) ∧
      ((∃ call ∈ (podBody c pod []).calls, c.fails call = true) →
        isError (podBody c pod []).value = true) := by
  cases hnode : c.getNode pod.Spec.NodeName with
  | error err =>
    refine ⟨[], by simp [podBody, hnode], by simp, ?_, ?_⟩
    · intro hok
      have := hok (Call.node pod.Spec.NodeName) (by simp [podBody, hnode])
      simp [Clientset.fails, hnode, isError] at this
    · intro _
      simp [podBody, hnode, isError]
  | ok node =>
    obtain ⟨made, h1, h2, h3, h4⟩ := volumeLoop_spec c pod pod.Spec.Volumes
      { PodName := pod.Name, NodeName := pod.Spec.NodeName, NodeZone := node.Labels.get zoneKey,
        PVInfo := [], ZoneMatched := false } [Call.node pod.Spec.NodeName]
    have hcalls : (podBody c pod []).calls = Call.node pod.Spec.NodeName :: made := by
      simpa [podBody, hnode] using h1
    refine ⟨made, hcalls, h2, ?_, ?_⟩
    · intro hok
      rw [hcalls] at hok
      obtain ⟨details, hv, hm, hf⟩ := h3 (fun call hc => hok call (by simp [hc]))
      exact ⟨node, details, rfl, by simpa [podBody, hnode] using hv, hm, hf⟩
    · intro hbad
      rw [hcalls] at hbad
      obtain ⟨call, hc, hfail⟩ := hbad
      simp only [List.mem_cons] at hc
      rcases hc with hc | hc
      · subst hc
        simp [Clientset.fails, hnode, isError] at hfail
      · simpa [podBody, hnode] using h4 ⟨call, hc, hfail⟩

theorem not_fails_or_fails (c : Clientset) (calls : List Call) :
    (∀ call ∈ calls, c.fails call = false) ∨ (∃ call ∈ calls, c.fails call = true) := by
  by_cases h : ∃ call ∈ calls, c.fails call = true
  · exact Or.inr h
  · left
    intro call hc
    cases hf : c.fails call with
    | false => rfl
    | true => exact absurd ⟨call, hc, hf⟩ h

theorem forall2_index {α β : Type} {R : α → β → Prop} {l₁ : List α} {l₂ : List β}
    (h : List.Forall₂ R l₁ l₂) :
    ∀ (i : Nat) (a : α), l₁[i]? = some a → ∃ b, l₂[i]? = some b ∧ R a b := by
  induction h with
  | nil => intro i a ha; simp at ha
  | cons hab _ ih =>
    intro i a ha
    cases i with
    | zero =>
      simp at ha
      subst ha
      exact ⟨_, by simp, hab⟩
    | succ n =>
      simp at ha
      simpa using ih n a ha


theorem podLoop_cons_error (c : Clientset) (pod : Pod) (rest : List Pod) (podInfos : List PodInfo)
    (calls : List Call) (err : GoString) (h : (podBody c pod []).value = .error err) :
    podLoop c (pod :: rest) podInfos calls =
      ⟨.error err, calls ++ (podBody c pod []).calls⟩ := by
  rw [podLoop, podBody_from, h]

theorem podLoop_cons_ok (c : Clientset) (pod : Pod) (rest : List Pod) (podInfos : List PodInfo)
    (calls : List Call) (podInfo : PodInfo) (h : (podBody c pod []).value = .ok podInfo) :
    podLoop c (pod :: rest) podInfos calls =
      podLoop c rest (podInfos ++ [podInfo]) (calls ++ (podBody c pod []).calls) := by
  rw [podLoop, podBody_from, h]

/-- A pod body that returns a record made no failing lookup. -/
theorem podBody_ok_calls (c : Clientset) (pod : Pod) (info : PodInfo)
    (h : (podBody c pod []).value = .ok info) :
    ∀ call ∈ (podBody c pod []).calls, c.fails call = false := by
  rcases not_fails_or_fails c (podBody c pod []).calls with hok | hbad
  · exact hok
  · obtain ⟨_, _, _, _, h4⟩ := podBody_spec c pod
    have := h4 hbad
    rw [h] at this
    simp [isError] at this

/-- A pod body whose lookups succeed returns a record. -/
theorem podBody_value_of_calls (c : Clientset) (pod : Pod) :
    (∃ info, (podBody c pod []).value = .ok info) ↔
      ∀ call ∈ (podBody c pod []).calls, c.fails call = false := by
  constructor
  · rintro ⟨info, h⟩
    exact podBody_ok_calls c pod info h
  · intro hok
    obtain ⟨_, _, _, h3, _⟩ := podBody_spec c pod
    obtain ⟨node, details, _, hv, _⟩ := h3 hok
    exact ⟨_, hv⟩

theorem podLoop_spec (c : Clientset) (pods : List Pod) :
    ∀ (podInfos : List PodInfo) (calls : List Call),
      (podLoop c pods podInfos calls).calls =
        calls ++ (podLoop c pods [] []).calls ∧
      ((∀ call ∈ (podLoop c pods [] []).calls, c.fails call = false) →
        ∃ news : List PodInfo,
          (podLoop c pods podInfos calls).value = .ok (podInfos ++ news) ∧
          List.Forall₂ (fun pod info => (podBody c pod []).value = .ok info) pods news) ∧
      ((∃ call ∈ (podLoop c pods [] []).calls, c.fails call = true) →
        isError (podLoop c pods podInfos calls).value = true) := by
  induction pods with
  | nil =>
    intro podInfos calls
    refine ⟨by simp [podLoop], ?_, by simp [podLoop]⟩
    intro _
    exact ⟨[], by simp [podLoop], List.Forall₂.nil⟩
  | cons pod rest ih =>
    intro podInfos calls
    cases hv : (podBody c pod []).value with
    | error err =>
      rw [podLoop_cons_error c pod rest podInfos calls err hv,
        podLoop_cons_error c pod rest [] [] err hv]
      refine ⟨by simp, ?_, by simp [isError]⟩
      intro hok
      have h1 : ∀ call ∈ (podBody c pod []).calls, c.fails call = false := by
        intro call hc
        exact hok call (by simpa using hc)
      obtain ⟨info, hinfo⟩ := (podBody_value_of_calls c pod).mpr h1
      rw [hv] at hinfo
      cases hinfo
    | ok info =>
      rw [podLoop_cons_ok c pod rest podInfos calls info hv,
        podLoop_cons_ok c pod rest [] [] info hv]
      obtain ⟨a1, a2, a3⟩ := ih (podInfos ++ [info]) (calls ++ (podBody c pod []).calls)
      obtain ⟨b1, b2, b3⟩ := ih ([] ++ [info]) ([] ++ (podBody c pod []).calls)
      refine ⟨by rw [a1, b1]; simp, ?_, ?_⟩
      · intro hok
        rw [b1] at hok
        obtain ⟨news, hn, hf⟩ := a2 (fun call hc => hok call (by simp [hc]))
        exact ⟨info :: news, by rw [hn]; simp, List.Forall₂.cons hv hf⟩
      · rintro ⟨call, hc, hfail⟩
        rw [b1] at hc
        simp only [List.nil_append, List.mem_append] at hc
        rcases hc with hc | hc
        · have := podBody_ok_calls c pod info hv call hc
          rw [this] at hfail
          cases hfail
        · exact a3 ⟨call, hc, hfail⟩


theorem podBody_ok_shape (c : Clientset) (pod : Pod) (info : PodInfo)
    (h : (podBody c pod []).value = .ok info) :
    ∃ (node : Node) (details : List PVDetails),
      c.getNode pod.Spec.NodeName = .ok node ∧
      info = { PodName := pod.Name
               NodeName := pod.Spec.NodeName
               NodeZone := node.Labels.get zoneKey
               PVInfo := details
               ZoneMatched :=
                 details.any (fun d => decide (d.PVZone = node.Labels.get zoneKey)) } ∧
      (podBody c pod []).calls =
        Call.node pod.Spec.NodeName :: detailCalls pod.Namespace details ∧
      List.Forall₂ (fun src d => ∃ pvc pv,
          c.getPVC pod.Namespace src.ClaimName = .ok pvc ∧
          c.getPV pvc.Spec.VolumeName = .ok pv ∧
          d = { PVCName := src.ClaimName, PVName := pvc.Spec.VolumeName,
                PVZone := pv.Labels.get zoneKey })
        (claimSources pod.Spec.Volumes) details := by
  obtain ⟨made, h1, _, h3, _⟩ := podBody_spec c pod
  obtain ⟨node, details, hn, hv, hm, hf⟩ := h3 (podBody_ok_calls c pod info h)
  rw [h] at hv
  injection hv with hv
  exact ⟨node, details, hn, hv, by rw [h1, hm], hf⟩

theorem volumeLoop_no_claims (c : Clientset) (pod : Pod) (volumes : List Volume)
    (hnone : ∀ volume ∈ volumes, volume.PersistentVolumeClaim = none) :
    ∀ (podInfo : PodInfo) (calls : List Call),
      volumeLoop c pod volumes podInfo calls = ⟨.ok podInfo, calls⟩ := by
  induction volumes with
  | nil => intro podInfo calls; rfl
  | cons volume rest ih =>
    intro podInfo calls
    have h0 := hnone volume (by simp)
    simp only [volumeLoop, h0]
    exact ih (fun v hv => hnone v (by simp [hv])) podInfo calls


/-- Reading the zone is a lookup of the key `topology.kubernetes.io/zone`. -/
theorem zone_lookup (m : Labels) :
    m.get zoneKey =
      match List.lookup (lit "topology.kubernetes.io/zone") m with
      | some zone => zone
      | none => [] := by
  rfl

theorem volumeLoop_append (c : Clientset) (pod : Pod) (xs ys : List Volume) :
    ∀ (podInfo : PodInfo) (calls : List Call),
      volumeLoop c pod (xs ++ ys) podInfo calls =
        match (volumeLoop c pod xs podInfo calls).value with
        | .ok mid => volumeLoop c pod ys mid (volumeLoop c pod xs podInfo calls).calls
        | .error err => ⟨.error err, (volumeLoop c pod xs podInfo calls).calls⟩ := by
  induction xs with
  | nil => intro podInfo calls; simp [volumeLoop]
  | cons volume rest ih =>
    intro podInfo calls
    cases hsrc : volume.PersistentVolumeClaim with
    | none =>
      have h := ih podInfo calls
      simpa [volumeLoop, hsrc] using h
    | some src =>
      cases hpvc : c.getPVC pod.Namespace src.ClaimName with
      | error err => simp [volumeLoop, hsrc, hpvc]
      | ok pvc =>
        cases hpv : c.getPV pvc.Spec.VolumeName with
        | error err => simp [volumeLoop, hsrc, hpvc, hpv]
        | ok pv =>
          rw [List.cons_append,
            volumeLoop_cons_ok c pod volume (rest ++ ys) podInfo calls src pvc pv hsrc hpvc hpv,
            volumeLoop_cons_ok c pod volume rest podInfo calls src pvc pv hsrc hpvc hpv, ih]

/-- The loop over volumes whose claims and volumes are all found. -/
theorem volumeLoop_resolved (c : Clientset) (pod : Pod) (volumes : List Volume)
    (h : ∀ src ∈ claimSources volumes, ∃ pvc pv,
      c.getPVC pod.Namespace src.ClaimName = .ok pvc ∧ c.getPV pvc.Spec.VolumeName = .ok pv) :
    ∀ (podInfo : PodInfo) (calls : List Call),
      ∃ details : List PVDetails,
        details.length = (claimSources volumes).length ∧
        volumeLoop c pod volumes podInfo calls =
          ⟨.ok { podInfo with
                 PVInfo := podInfo.PVInfo ++ details
                 ZoneMatched := podInfo.ZoneMatched ||
                   details.any (fun d => decide (d.PVZone = podInfo.NodeZone)) },
            calls ++ detailCalls pod.Namespace details⟩ := by
  induction volumes with
  | nil =>
    intro podInfo calls
    exact ⟨[], rfl, by simp [volumeLoop, detailCalls]⟩
  | cons volume rest ih =>
    intro podInfo calls
    cases hsrc : volume.PersistentVolumeClaim with
    | none =>
      have h2 : ∀ src ∈ claimSources rest, ∃ pvc pv,
          c.getPVC pod.Namespace src.ClaimName = .ok pvc ∧
            c.getPV pvc.Spec.VolumeName = .ok pv := by
        intro src hs
        exact h src (by simpa [claimSources, hsrc] using hs)
      obtain ⟨details, hl, hv⟩ := ih h2 podInfo calls
      exact ⟨details, by simpa [claimSources, hsrc] using hl, by simpa [volumeLoop, hsrc] using hv⟩
    | some src =>
      obtain ⟨pvc, pv, hpvc, hpv⟩ := h src (by simp [claimSources, hsrc])
      have h2 : ∀ s ∈ claimSources rest, ∃ pvc pv,
          c.getPVC pod.Namespace s.ClaimName = .ok pvc ∧
            c.getPV pvc.Spec.VolumeName = .ok pv := by
        intro s hs
        exact h s (by simp only [claimSources, List.filterMap_cons, hsrc] at hs ⊢; simp [hs])
      obtain ⟨details, hl, hv⟩ := ih h2
        { podInfo with
          PVInfo := podInfo.PVInfo ++ [{ PVCName := src.ClaimName, PVName := pvc.Spec.VolumeName,
                                         PVZone := pv.Labels.get zoneKey }]
          ZoneMatched := podInfo.ZoneMatched ||
            decide (pv.Labels.get zoneKey = podInfo.NodeZone) }
        (calls ++ [Call.claim pod.Namespace src.ClaimName, Call.volume pvc.Spec.VolumeName])
      refine ⟨{ PVCName := src.ClaimName, PVName := pvc.Spec.VolumeName,
                PVZone := pv.Labels.get zoneKey } :: details, ?_, ?_⟩
      · simp [claimSources, hsrc, hl]
      · rw [volumeLoop_cons_ok c pod volume rest podInfo calls src pvc pv hsrc hpvc hpv, hv]
        simp [detailCalls, Bool.or_assoc]

/-- The pod body up to a claim-backed volume whose claim is found, when the node
and everything before that volume are found. -/
theorem podBody_reaches (c : Clientset) (pod : Pod) (calls : List Call)
    (before after : List Volume) (volume : Volume)
    (src : PersistentVolumeClaimVolumeSource) (pvc : PersistentVolumeClaim) (node : Node)
    (hvols : pod.Spec.Volumes = before ++ volume :: after)
    (hsrc : volume.PersistentVolumeClaim = some src)
    (hpvc : c.getPVC pod.Namespace src.ClaimName = .ok pvc)
    (hnode : c.getNode pod.Spec.NodeName = .ok node)
    (hbefore : ∀ s ∈ claimSources before, ∃ p v,
      c.getPVC pod.Namespace s.ClaimName = .ok p ∧ c.getPV p.Spec.VolumeName = .ok v) :
    ∃ details : List PVDetails,
      details.length = (claimSources before).length ∧
      (∀ err, c.getPV pvc.Spec.VolumeName = .error err →
        podBody c pod calls =
          ⟨.error err,
            calls ++ Call.node pod.Spec.NodeName :: detailCalls pod.Namespace details ++
              [Call.claim pod.Namespace src.ClaimName, Call.volume pvc.Spec.VolumeName]⟩) ∧
      (∀ pv, c.getPV pvc.Spec.VolumeName = .ok pv →
        podBody c pod calls =
          volumeLoop c pod after
            { PodName := pod.Name
              NodeName := pod.Spec.NodeName
              NodeZone := node.Labels.get zoneKey
              PVInfo := details ++ [{ PVCName := src.ClaimName, PVName := pvc.Spec.VolumeName,
                                      PVZone := pv.Labels.get zoneKey }]
              ZoneMatched :=
                details.any (fun d => decide (d.PVZone = node.Labels.get zoneKey)) ||
                  decide (pv.Labels.get zoneKey = node.Labels.get zoneKey) }
            (calls ++ Call.node pod.Spec.NodeName :: detailCalls pod.Namespace details ++
              [Call.claim pod.Namespace src.ClaimName, Call.volume pvc.Spec.VolumeName])) := by
  obtain ⟨details, hl, hv⟩ := volumeLoop_resolved c pod before hbefore
    { PodName := pod.Name, NodeName := pod.Spec.NodeName, NodeZone := node.Labels.get zoneKey,
      PVInfo := [], ZoneMatched := false } (calls ++ [Call.node pod.Spec.NodeName])
  have hbody : podBody c pod calls =
      volumeLoop c pod (volume :: after)
        { PodName := pod.Name, NodeName := pod.Spec.NodeName,
          NodeZone := node.Labels.get zoneKey, PVInfo := details,
          ZoneMatched := details.any (fun d => decide (d.PVZone = node.Labels.get zoneKey)) }
        (calls ++ Call.node pod.Spec.NodeName :: detailCalls pod.Namespace details) := by
    simp only [podBody, hnode, hvols]
    rw [volumeLoop_append, hv]
    simp
  refine ⟨details, hl, ?_, ?_⟩
  · intro err herr
    rw [hbody]
    simp [volumeLoop, hsrc, hpvc, herr]
  · intro pv hpv
    rw [hbody, volumeLoop_cons_ok c pod volume after _ _ src pvc pv hsrc hpvc hpv]

theorem claimSources_split (before after : List Volume) (volume : Volume)
    (src : PersistentVolumeClaimVolumeSource) (hsrc : volume.PersistentVolumeClaim = some src) :
    (claimSources (before ++ volume :: after))[(claimSources before).length]? = some src := by
  simp only [claimSources, List.filterMap_append, List.filterMap_cons, hsrc]
  rw [List.getElem?_append_right (Nat.le_refl _)]
  simp

theorem printText_eq (podInfos : List PodInfo) :
    ∀ stdout : GoString, printText podInfos stdout = stdout ++ (podInfos.map textLine).flatten := by
  induction podInfos with
  | nil => intro stdout; simp [printText]
  | cons info rest ih => intro stdout; simp [printText, ih]

theorem textLine_count_newline (info : PodInfo)
    (h : 10 ∉ info.PodName ∧ 10 ∉ info.NodeName ∧ 10 ∉ info.NodeZone) :
    (textLine info).count 10 = 1 := by
  obtain ⟨h1, h2, h3⟩ := h
  have e1 : (lit "Pod: ").count 10 = 0 := by decide
  have e2 : (lit ", Node: ").count 10 = 0 := by decide
  have e3 : (lit ", Node Zone: ").count 10 = 0 := by decide
  have e4 : (lit ", Zone Matched: ").count 10 = 0 := by decide
  have e5 : (lit "\n").count 10 = 1 := by decide
  have e6 : (fmtBool info.ZoneMatched).count 10 = 0 := by
    cases info.ZoneMatched <;> decide
  simp only [textLine, List.count_append, e1, e2, e3, e4, e5, e6,
    List.count_eq_zero_of_not_mem h1, List.count_eq_zero_of_not_mem h2,
    List.count_eq_zero_of_not_mem h3]

theorem count_flatten_textLine (podInfos : List PodInfo)
    (h : ∀ p ∈ podInfos, 10 ∉ p.PodName ∧ 10 ∉ p.NodeName ∧ 10 ∉ p.NodeZone) :
    ((podInfos.map textLine).flatten).count 10 = podInfos.length := by
  induction podInfos with
  | nil => rfl
  | cons info rest ih =>
    simp only [List.map_cons, List.flatten_cons, List.count_append, List.length_cons]
    rw [textLine_count_newline info (h info (by simp)), ih (fun p hp => h p (by simp [hp]))]
    omega

theorem rowLoop_eq (info : PodInfo) (pvs : List PVDetails) :
    ∀ w : TabWriter, rowLoop info pvs w =
      .ok { text := w.text ++ (pvs.map (tableRow info)).flatten } := by
  induction pvs with
  | nil => intro w; simp [rowLoop]
  | cons pv rest ih => intro w; simp [rowLoop, TabWriter.Fprint, ih]

theorem tableLoop_eq (podInfos : List PodInfo) :
    ∀ w : TabWriter, tableLoop podInfos w =
      .ok { text := w.text ++ (tableRows podInfos).flatten } := by
  induction podInfos with
  | nil => intro w; simp [tableLoop, tableRows]
  | cons info rest ih =>
    intro w
    simp [tableLoop, rowLoop_eq, ih, tableRows, List.flatMap_cons]

theorem tableRows_length (podInfos : List PodInfo) :
    (tableRows podInfos).length = (podInfos.map (fun p => p.PVInfo.length)).sum := by
  induction podInfos with
  | nil => rfl
  | cons info rest ih =>
    simp only [tableRows, List.flatMap_cons, List.length_append, List.length_map,
      List.map_cons, List.sum_cons] at ih ⊢
    rw [ih]


theorem main_calls (tabfmt : GoString → GoString) (c : Clientset) (outputFormat : GoString) (pods : List Pod) :
    (main tabfmt c outputFormat pods).calls = (podLoop c pods [] []).calls := by
  unfold main
  rcases podLoop c pods [] [] with ⟨v, cs⟩
  cases v with
  | error err => rfl
  | ok infos =>
    simp only
    cases render tabfmt outputFormat infos [] <;> rfl

theorem main_of_error (tabfmt : GoString → GoString) (c : Clientset) (outputFormat : GoString) (pods : List Pod)
    (h : isError (podLoop c pods [] []).value = true) :
    (main tabfmt c outputFormat pods).panicked ≠ none ∧ (main tabfmt c outputFormat pods).stdout = [] := by
  unfold main
  rcases hp : podLoop c pods [] [] with ⟨v, cs⟩
  rw [hp] at h
  cases v with
  | error err => simp
  | ok infos => simp [isError] at h

theorem main_of_ok (tabfmt : GoString → GoString) (c : Clientset) (outputFormat : GoString) (pods : List Pod)
    (podInfos : List PodInfo) (h : (podLoop c pods [] []).value = .ok podInfos) :
    main tabfmt c outputFormat pods =
      match render tabfmt outputFormat podInfos [] with
      | .error err => { stdout := [], panicked := some err, calls := (podLoop c pods [] []).calls }
      | .ok stdout => { stdout := stdout, panicked := none, calls := (podLoop c pods [] []).calls } := by
  unfold main
  rcases hp : podLoop c pods [] [] with ⟨v, cs⟩
  rw [hp] at h
  simp only at h
  subst h
  rfl

/-! ## Lemmas about UTF-8 and JSON -/

theorem encodeRune_two (p0 b1 : Nat) (h0 : 0xC2 ≤ p0) (h1 : p0 < 0xE0) (h2 : 0x80 ≤ b1)
    (h3 : b1 ≤ 0xBF) : encodeRune ((p0 - 0xC0) * 64 + (b1 - 0x80)) = [p0, b1] := by
  generalize hc : (p0 - 0xC0) * 64 + (b1 - 0x80) = c
  have e1 : ¬ c ≤ 0x7F := by omega
  have e2 : c ≤ 0x7FF := by omega
  have e3 : 0xC0 + c / 64 = p0 := by omega
  have e4 : 0x80 + c % 64 = b1 := by omega
  unfold encodeRune
  rw [if_neg e1, if_pos e2, e3, e4]

theorem encodeRune_three (p0 b1 b2 : Nat) (h0 : 0xE0 ≤ p0) (h1 : p0 < 0xF0)
    (h2 : (if p0 = 0xE0 then 0xA0 else 0x80) ≤ b1)
    (h3 : b1 ≤ (if p0 = 0xED then 0x9F else 0xBF))
    (h4 : 0x80 ≤ b2) (h5 : b2 ≤ 0xBF) :
    encodeRune ((p0 - 0xE0) * 4096 + (b1 - 0x80) * 64 + (b2 - 0x80)) = [p0, b1, b2] := by
  generalize hc : (p0 - 0xE0) * 4096 + (b1 - 0x80) * 64 + (b2 - 0x80) = c
  have h3' : b1 ≤ 0xBF := by split at h3 <;> omega
  have h2' : 0x80 ≤ b1 := by split at h2 <;> omega
  have e1 : ¬ c ≤ 0x7F := by split at h2 <;> omega
  have e2 : ¬ c ≤ 0x7FF := by split at h2 <;> omega
  have e3 : ¬ (0x10FFFF < c ∨ (0xD800 ≤ c ∧ c ≤ 0xDFFF)) := by split at h3 <;> omega
  have e4 : c ≤ 0xFFFF := by omega
  have e5 : 0xE0 + c / 4096 = p0 := by omega
  have e6 : 0x80 + c / 64 % 64 = b1 := by omega
  have e7 : 0x80 + c % 64 = b2 := by omega
  unfold encodeRune
  rw [if_neg e1, if_neg e2, if_neg e3, if_pos e4, e5, e6, e7]

theorem encodeRune_four (p0 b1 b2 b3 : Nat) (h0 : 0xF0 ≤ p0) (h1 : p0 < 0xF5)
    (h2 : (if p0 = 0xF0 then 0x90 else 0x80) ≤ b1)
    (h3 : b1 ≤ (if p0 = 0xF4 then 0x8F else 0xBF))
    (h4 : 0x80 ≤ b2) (h5 : b2 ≤ 0xBF) (h6 : 0x80 ≤ b3) (h7 : b3 ≤ 0xBF) :
    encodeRune ((p0 - 0xF0) * 262144 + (b1 - 0x80) * 4096 + (b2 - 0x80) * 64 + (b3 - 0x80)) =
      [p0, b1, b2, b3] := by
  generalize hc :
    (p0 - 0xF0) * 262144 + (b1 - 0x80) * 4096 + (b2 - 0x80) * 64 + (b3 - 0x80) = c
  have h3' : b1 ≤ 0xBF := by split at h3 <;> omega
  have h2' : 0x80 ≤ b1 := by split at h2 <;> omega
  have e1 : ¬ c ≤ 0x7F := by split at h2 <;> omega
  have e2 : ¬ c ≤ 0x7FF := by split at h2 <;> omega
  have e3 : ¬ (0x10FFFF < c ∨ (0xD800 ≤ c ∧ c ≤ 0xDFFF)) := by
    split at h2 <;> split at h3 <;> omega
  have e4 : ¬ c ≤ 0xFFFF := by split at h2 <;> omega
  have e5 : 0xF0 + c / 262144 = p0 := by omega
  have e6 : 0x80 + c / 4096 % 64 = b1 := by omega
  have e7 : 0x80 + c / 64 % 64 = b2 := by omega
  have e8 : 0x80 + c % 64 = b3 := by omega
  unfold encodeRune
  rw [if_neg e1, if_neg e2, if_neg e3, if_neg e4, e5, e6, e7, e8]

theorem isCont_iff (b : Nat) : isCont b = true ↔ 0x80 ≤ b ∧ b ≤ 0xBF := by
  simp [isCont]

/-- The outcome of `decodeRune` at a byte that is not ASCII: an error of width
one, or a rune whose encoding is the bytes it was read from. -/
theorem decodeRune_cases (b : Nat) (rest : GoString) (hb : ¬ b < 0x80) :
    decodeRune (b :: rest) = (runeError, 1) ∨
    ∃ (enc tail : GoString),
      b :: rest = enc ++ tail ∧ 2 ≤ enc.length ∧
      (decodeRune (b :: rest)).2 = enc.length ∧
      encodeRune (decodeRune (b :: rest)).1 = enc ∧
      (∀ t, decodeRune (enc ++ t) = decodeRune (b :: rest)) := by
  by_cases h1 : b < 0xC2
  · left
    simp [decodeRune, hb, h1]
  by_cases h2 : b < 0xE0
  · cases rest with
    | nil => left; simp [decodeRune, hb, h1, h2]
    | cons b1 r1 =>
      by_cases hc : isCont b1 = true
      · right
        have hr := (isCont_iff b1).mp hc
        refine ⟨[b, b1], r1, rfl, by simp, ?_, ?_, ?_⟩
        · simp [decodeRune, hb, h1, h2, hc]
        · simp only [decodeRune, hb, h1, h2, hc, if_false, if_true]
          exact encodeRune_two b b1 (by omega) h2 hr.1 hr.2
        · intro t
          simp [decodeRune, hb, h1, h2, hc]
      · left
        simp [decodeRune, hb, h1, h2, hc]
  by_cases h3 : b < 0xF0
  · match rest with
    | [] => left; simp [decodeRune, hb, h1, h2, h3]
    | [_] => left; simp [decodeRune, hb, h1, h2, h3]
    | b1 :: b2 :: r2 =>
      by_cases hc : (if b = 0xE0 then 0xA0 else 0x80) ≤ b1 ∧
          b1 ≤ (if b = 0xED then 0x9F else 0xBF) ∧ isCont b2 = true
      · right
        have hr := (isCont_iff b2).mp hc.2.2
        refine ⟨[b, b1, b2], r2, rfl, by simp, ?_, ?_, ?_⟩
        · simp [decodeRune, hb, h1, h2, h3, hc]
        · simp only [decodeRune, hb, h1, h2, h3, hc, if_false, if_true, and_self]
          exact encodeRune_three b b1 b2 (by omega) h3 hc.1 hc.2.1 hr.1 hr.2
        · intro t
          simp [decodeRune, hb, h1, h2, h3, hc]
      · left
        simp [decodeRune, hb, h1, h2, h3, hc]
  by_cases h4 : b < 0xF5
  · match rest with
    | [] => left; simp [decodeRune, hb, h1, h2, h3, h4]
    | [_] => left; simp [decodeRune, hb, h1, h2, h3, h4]
    | [_, _] => left; simp [decodeRune, hb, h1, h2, h3, h4]
    | b1 :: b2 :: b3 :: r3 =>
      by_cases hc : (if b = 0xF0 then 0x90 else 0x80) ≤ b1 ∧
          b1 ≤ (if b = 0xF4 then 0x8F else 0xBF) ∧ isCont b2 = true ∧ isCont b3 = true
      · right
        have hr2 := (isCont_iff b2).mp hc.2.2.1
        have hr3 := (isCont_iff b3).mp hc.2.2.2
        refine ⟨[b, b1, b2, b3], r3, rfl, by simp, ?_, ?_, ?_⟩
        · simp [decodeRune, hb, h1, h2, h3, h4, hc]
        · simp only [decodeRune, hb, h1, h2, h3, h4, hc, if_false, if_true, and_self]
          exact encodeRune_four b b1 b2 b3 (by omega) h4 hc.1 hc.2.1 hr2.1 hr2.2 hr3.1 hr3.2
        · intro t
          simp [decodeRune, hb, h1, h2, h3, h4, hc]
      · left
        simp [decodeRune, hb, h1, h2, h3, h4, hc]
  · left
    simp [decodeRune, hb, h1, h2, h3, h4]

theorem hexValue_hexDigit (n : Nat) (h : n < 16) : hexValue (hexDigit n) = some n := by
  unfold hexDigit hexValue
  by_cases h1 : n < 10
  · rw [if_pos h1, if_pos (by omega)]
    congr 1
    omega
  · rw [if_neg h1, if_neg (by omega), if_pos (by omega)]
    congr 1
    omega

theorem getu4_ascii (b : Nat) (hb : b < 0x80) (t : GoString) :
    getu4 (0x30 :: 0x30 :: hexDigit (b / 16) :: hexDigit (b % 16) :: t) = some b := by
  have h0 : hexValue 0x30 = some 0 := by decide
  simp only [getu4, h0, hexValue_hexDigit (b / 16) (by omega),
    hexValue_hexDigit (b % 16) (by omega)]
  congr 1
  omega

theorem lexString_plain (c : Nat) (h1 : c ≠ 0x22) (h2 : c ≠ 0x5C) (h3 : 0x20 ≤ c) (h4 : c < 0x80)
    (fuel : Nat) (text acc : GoString) :
    lexString (fuel + 1) (c :: text) acc = lexString fuel text (acc ++ [c]) := by
  have h5 : ¬ c < 0x20 := by omega
  simp only [lexString, if_neg h1, if_neg h2, if_neg h5, if_pos h4]

theorem lexString_escape (e x : Nat)
    (h : (e = 0x22 ∨ e = 0x5C) ∧ x = e ∨ e = 0x62 ∧ x = 0x08 ∨ e = 0x66 ∧ x = 0x0C ∨
      e = 0x6E ∧ x = 0x0A ∨ e = 0x72 ∧ x = 0x0D ∨ e = 0x74 ∧ x = 0x09)
    (fuel : Nat) (text acc : GoString) :
    lexString (fuel + 1) (0x5C :: e :: text) acc = lexString fuel text (acc ++ [x]) := by
  rw [lexString, if_neg (by decide), if_pos rfl]
  rcases h with ⟨h | h, hx⟩ | ⟨h, hx⟩ | ⟨h, hx⟩ | ⟨h, hx⟩ | ⟨h, hx⟩ | ⟨h, hx⟩ <;>
    subst h <;> subst hx <;> rfl

theorem lexString_unicode (rr : Nat) (digits : GoString) (h : getu4 digits = some rr)
    (hs : ¬ (0xD800 ≤ rr ∧ rr < 0xE000)) (fuel : Nat) (acc : GoString) :
    lexString (fuel + 1) (0x5C :: 0x75 :: digits) acc =
      lexString fuel (digits.drop 4) (acc ++ encodeRune rr) := by
  simp only [lexString, h, if_neg hs]
  simp

theorem lexString_rune (c : Nat) (hc : ¬ c < 0x80) (fuel : Nat) (text acc : GoString) :
    lexString (fuel + 1) (c :: text) acc =
      lexString fuel ((c :: text).drop (decodeRune (c :: text)).2)
        (acc ++ encodeRune (decodeRune (c :: text)).1) := by
  have h1 : c ≠ 0x22 := by omega
  have h2 : c ≠ 0x5C := by omega
  have h3 : ¬ c < 0x20 := by omega
  simp only [lexString, if_neg h1, if_neg h2, if_neg h3, if_neg hc]

/-- One step of the reader undoes what the writer wrote for an ASCII byte. -/
theorem lexString_ascii (b : Nat) (hb : b < 0x80) (fuel : Nat) (text acc : GoString) :
    lexString (fuel + 1) ((if htmlSafe b = true then [b] else escapeByte b) ++ text) acc =
      lexString fuel text (acc ++ [b]) := by
  by_cases hs : htmlSafe b = true
  · rw [if_pos hs]
    simp only [htmlSafe, decide_eq_true_eq] at hs
    exact lexString_plain b (by omega) (by omega) (by omega) hb fuel text acc
  · rw [if_neg hs]
    unfold escapeByte
    by_cases h1 : b = 0x5C ∨ b = 0x22
    · rw [if_pos h1]
      exact lexString_escape b b (Or.inl ⟨h1.symm, rfl⟩) fuel text acc
    rw [if_neg h1]
    by_cases h2 : b = 0x08
    · rw [if_pos h2, h2]
      exact lexString_escape 0x62 0x08 (by decide) fuel text acc
    rw [if_neg h2]
    by_cases h3 : b = 0x0C
    · rw [if_pos h3, h3]
      exact lexString_escape 0x66 0x0C (by decide) fuel text acc
    rw [if_neg h3]
    by_cases h4 : b = 0x0A
    · rw [if_pos h4, h4]
      exact lexString_escape 0x6E 0x0A (by decide) fuel text acc
    rw [if_neg h4]
    by_cases h5 : b = 0x0D
    · rw [if_pos h5, h5]
      exact lexString_escape 0x72 0x0D (by decide) fuel text acc
    rw [if_neg h5]
    by_cases h6 : b = 0x09
    · rw [if_pos h6, h6]
      exact lexString_escape 0x74 0x09 (by decide) fuel text acc
    rw [if_neg h6]
    have hl : lit "\\u00" = [0x5C, 0x75, 0x30, 0x30] := by decide
    rw [hl]
    have hu := lexString_unicode b
      (0x30 :: 0x30 :: hexDigit (b / 16) :: hexDigit (b % 16) :: text)
      (getu4_ascii b hb text) (by omega) fuel acc
    have he : encodeRune b = [b] := by
      unfold encodeRune
      rw [if_pos (by omega)]
    rw [he] at hu
    exact hu

theorem getu4_2028 (c : Nat) (hc : c = 0x2028 ∨ c = 0x2029) (t : GoString) :
    getu4 (0x32 :: 0x30 :: 0x32 :: hexDigit (c % 16) :: t) = some c := by
  rcases hc with hc | hc <;> subst hc <;> rfl

theorem quoteByte_length_pos (b : Nat) :
    0 < (if htmlSafe b = true then [b] else escapeByte b).length := by
  unfold escapeByte
  split_ifs <;> first | decide | simp

/-- Reading back what `quoteLoop` wrote for a valid UTF-8 string gives the string. -/
theorem lexString_quoteLoop :
    ∀ (fuel : Nat) (s : GoString), s.length ≤ fuel → validLoop fuel s = true →
      ∀ (fuel2 : Nat) (rest acc : GoString), (quoteLoop fuel s).length < fuel2 →
        lexString fuel2 (quoteLoop fuel s ++ 0x22 :: rest) acc = some (acc ++ s, rest) := by
  intro fuel
  induction fuel with
  | zero =>
    intro s hlen _ fuel2 rest acc hf
    have hs : s = [] := List.length_eq_zero.mp (by omega)
    subst hs
    cases fuel2 with
    | zero => simp [quoteLoop] at hf
    | succ f => simp [quoteLoop, lexString]
  | succ fuel ih =>
    intro s hlen hvalid fuel2 rest acc hf
    cases s with
    | nil =>
      cases fuel2 with
      | zero => simp [quoteLoop] at hf
      | succ f => simp [quoteLoop, lexString]
    | cons b t =>
      by_cases hb : b < 0x80
      · have hq : quoteLoop (fuel + 1) (b :: t) =
            (if htmlSafe b = true then [b] else escapeByte b) ++ quoteLoop fuel t := by
          simp only [quoteLoop, if_pos hb]
        have hv : validLoop fuel t = true := by
          simpa only [validLoop, if_pos hb] using hvalid
        rw [hq] at hf ⊢
        cases fuel2 with
        | zero => omega
        | succ f =>
          rw [List.append_assoc, lexString_ascii b hb]
          have hpos := quoteByte_length_pos b
          rw [List.length_append] at hf
          rw [ih t (by simpa using hlen) hv f rest (acc ++ [b]) (by omega)]
          simp
      · have hne : decodeRune (b :: t) ≠ (runeError, 1) := by
          intro he
          simp [validLoop, hb, he] at hvalid
        have hv : validLoop fuel ((b :: t).drop (decodeRune (b :: t)).2) = true := by
          simpa only [validLoop, if_neg hb, if_neg hne] using hvalid
        rcases decodeRune_cases b t hb with herr | ⟨enc, tail, hsplit, hlen2, hsize, henc, hlocal⟩
        · exact absurd herr hne
        · have hdrop : (b :: t).drop (decodeRune (b :: t)).2 = tail := by
            rw [hsize, hsplit, List.drop_left]
          have htake : (b :: t).take (decodeRune (b :: t)).2 = enc := by
            rw [hsize, hsplit, List.take_left]
          rw [hdrop] at hv
          have htl : tail.length ≤ fuel := by
            have := congrArg List.length hsplit
            simp only [List.length_cons, List.length_append] at this hlen
            omega
          obtain ⟨enc1, henc1⟩ : ∃ enc1, enc = b :: enc1 := by
            cases enc with
            | nil => simp at hlen2
            | cons x xs =>
              simp only [List.cons_append, List.cons.injEq] at hsplit
              exact ⟨xs, by rw [hsplit.1]⟩
          by_cases hsep : (decodeRune (b :: t)).1 = 0x2028 ∨ (decodeRune (b :: t)).1 = 0x2029
          · have hq : quoteLoop (fuel + 1) (b :: t) =
                lit "\\u202" ++ [hexDigit ((decodeRune (b :: t)).1 % 16)] ++ quoteLoop fuel tail := by
              simp only [quoteLoop, if_neg hb, if_neg hne, if_pos hsep, hdrop]
            have hl : lit "\\u202" = [0x5C, 0x75, 0x32, 0x30, 0x32] := by decide
            rw [hq, hl] at hf ⊢
            cases fuel2 with
            | zero => omega
            | succ f =>
              simp only [List.cons_append, List.nil_append, List.append_assoc]
              rw [lexString_unicode (decodeRune (b :: t)).1 _ (getu4_2028 _ hsep _)
                (by rcases hsep with h | h <;> rw [h] <;> decide)]
              simp only [List.drop_succ_cons, List.drop_zero]
              simp only [List.length_append, List.length_cons, List.length_nil] at hf
              rw [henc, ih tail htl hv f rest (acc ++ enc) (by omega), List.append_assoc, hsplit]
          · have hq : quoteLoop (fuel + 1) (b :: t) = enc ++ quoteLoop fuel tail := by
              simp only [quoteLoop, if_neg hb, if_neg hne, if_neg hsep, hdrop, htake]
            rw [hq] at hf ⊢
            cases fuel2 with
            | zero => omega
            | succ f =>
              have hdec : decodeRune (b :: (enc1 ++ (quoteLoop fuel tail ++ 0x22 :: rest))) =
                  decodeRune (b :: t) := by
                have := hlocal (quoteLoop fuel tail ++ 0x22 :: rest)
                rw [henc1] at this
                exact this
              rw [List.append_assoc, henc1, List.cons_append, lexString_rune b hb, hdec, hsize,
                henc]
              have hd : List.drop enc.length (b :: (enc1 ++ (quoteLoop fuel tail ++ 0x22 :: rest))) =
                  quoteLoop fuel tail ++ 0x22 :: rest := by
                rw [← List.cons_append, ← henc1, List.drop_left]
              rw [hd]
              simp only [List.length_append] at hf
              rw [ih tail htl hv f rest (acc ++ enc) (by omega), List.append_assoc, hsplit]

theorem lex_skip (xs : GoString) (rest : GoString) :
    lex xs.length (xs ++ rest) = lex 0 rest := by
  induction xs with
  | nil => rfl
  | cons x xs ih => simpa [lex] using ih

theorem LexesTo.nil : LexesTo [] [] := by
  intro rest
  cases h : lex 0 rest <;> simp [h]

theorem LexesTo.append {a b : GoString} {ta tb : List Token} (ha : LexesTo a ta)
    (hb : LexesTo b tb) : LexesTo (a ++ b) (ta ++ tb) := by
  intro rest
  rw [List.append_assoc, ha, hb]
  cases h : lex 0 rest <;> simp [h]

theorem lexesTo_space (c : Nat) (hc : c = 0x20 ∨ c = 0x09 ∨ c = 0x0A ∨ c = 0x0D) :
    LexesTo [c] [] := by
  intro rest
  simp only [List.singleton_append, lex, if_pos hc]
  cases h : lex 0 rest <;> simp [h]

theorem lexesTo_newline (depth : Nat) : LexesTo (newline depth) [] := by
  unfold newline
  have h1 : LexesTo (lit "\n") [] := lexesTo_space 0x0A (by decide)
  have h2 : LexesTo (lit "  ") [] :=
    LexesTo.append (lexesTo_space 0x20 (by decide)) (lexesTo_space 0x20 (by decide))
  have h3 : LexesTo (List.replicate depth (lit "  ")).flatten [] := by
    induction depth with
    | zero => exact LexesTo.nil
    | succ n ih =>
      rw [List.replicate_succ, List.flatten_cons]
      exact LexesTo.append h2 ih
  exact LexesTo.append h1 h3

theorem lexesTo_beginArray : LexesTo (lit "[") [Token.beginArray] := by
  intro rest; rfl

theorem lexesTo_endArray : LexesTo (lit "]") [Token.endArray] := by
  intro rest; rfl

theorem lexesTo_beginObject : LexesTo (lit "\x7b") [Token.beginObject] := by
  intro rest; rfl

theorem lexesTo_endObject : LexesTo (lit "\x7d") [Token.endObject] := by
  intro rest; rfl

theorem lexesTo_comma : LexesTo (lit ",") [Token.comma] := by
  intro rest; rfl

theorem lexesTo_colon : LexesTo (lit ": ") [Token.colon] := by
  have h1 : LexesTo [0x3A] [Token.colon] := by intro rest; rfl
  exact LexesTo.append h1 (lexesTo_space 0x20 (by decide))

theorem lexesTo_null : LexesTo (lit "null") [Token.null] := by
  intro rest; rfl

theorem lexesTo_true : LexesTo (lit "true") [Token.true] := by
  intro rest; rfl

theorem lexesTo_false : LexesTo (lit "false") [Token.false] := by
  intro rest; rfl

theorem lexesTo_quote (s : GoString) (hs : validUTF8 s = true) :
    LexesTo (quote s) [Token.string s] := by
  intro rest
  have hstr := lexString_quoteLoop s.length s (Nat.le_refl _) hs
    ((quoteLoop s.length s ++ 0x22 :: rest).length + 1) rest []
    (by simp only [List.length_append, List.length_cons]; omega)
  have hq : quote s ++ rest = 0x22 :: (quoteLoop s.length s ++ 0x22 :: rest) := by
    simp [quote]
  rw [hq]
  simp only [lex]
  rw [if_pos True.intro, hstr]
  simp only [List.nil_append]
  have hlen : (quoteLoop s.length s ++ 0x22 :: rest).length - rest.length =
      (quoteLoop s.length s ++ [0x22]).length := by
    simp only [List.length_append, List.length_cons, List.length_nil]
    omega
  have hsplit : quoteLoop s.length s ++ 0x22 :: rest = (quoteLoop s.length s ++ [0x22]) ++ rest := by
    simp
  rw [hlen, hsplit, lex_skip]
  cases h : lex 0 rest <;> simp [h]

theorem lexesTo_intercalate {α : Type} (f : α → GoString) (g : α → List Token)
    (sep : GoString) (tsep : List Token) (hsep : LexesTo sep tsep) (xs : List α)
    (h : ∀ x ∈ xs, LexesTo (f x) (g x)) :
    LexesTo (List.intercalate sep (xs.map f)) (List.intercalate tsep (xs.map g)) := by
  induction xs with
  | nil => exact LexesTo.nil
  | cons x rest ih =>
    cases rest with
    | nil =>
      simpa [List.intercalate] using h x (by simp)
    | cons y ys =>
      have h1 := h x (by simp)
      have h2 := ih (fun z hz => h z (by simp [hz]))
      have e1 : List.intercalate sep (List.map f (x :: y :: ys)) =
          f x ++ (sep ++ List.intercalate sep (List.map f (y :: ys))) := by
        simp [List.intercalate, List.intersperse]
      have e2 : List.intercalate tsep (List.map g (x :: y :: ys)) =
          g x ++ (tsep ++ List.intercalate tsep (List.map g (y :: ys))) := by
        simp [List.intercalate, List.intersperse]
      rw [e1, e2]
      exact LexesTo.append h1 (LexesTo.append hsep h2)

theorem lexesTo_separator (depth : Nat) : LexesTo (lit "," ++ newline depth) [Token.comma] := by
  simpa using LexesTo.append lexesTo_comma (lexesTo_newline depth)

theorem lexesTo_member (key : String) (value : GoString) (tokens : List Token)
    (hk : validUTF8 (lit key) = true) (hv : LexesTo value tokens) :
    LexesTo (member key value) (memberTokens key tokens) := by
  unfold member memberTokens
  have := LexesTo.append (LexesTo.append (lexesTo_quote (lit key) hk) lexesTo_colon) hv
  simpa using this

theorem lexesTo_arrayText {α : Type} (f : α → GoString) (g : α → List Token) (depth : Nat)
    (xs : List α) (h : ∀ x ∈ xs, LexesTo (f x) (g x)) :
    LexesTo (arrayText depth (xs.map f)) (arrayTokens (xs.map g)) := by
  unfold arrayText arrayTokens
  have h1 := lexesTo_intercalate f g _ _ (lexesTo_separator (depth + 1)) xs h
  have := LexesTo.append (LexesTo.append (LexesTo.append (LexesTo.append lexesTo_beginArray
    (lexesTo_newline (depth + 1))) h1) (lexesTo_newline depth)) lexesTo_endArray
  simpa using this

theorem lexesTo_objectText (depth : Nat) (members : List (GoString × List Token))
    (h : ∀ m ∈ members, LexesTo m.1 m.2) :
    LexesTo (objectText depth (members.map Prod.fst)) (objectTokens (members.map Prod.snd)) := by
  unfold objectText objectTokens
  have h1 := lexesTo_intercalate Prod.fst Prod.snd _ _ (lexesTo_separator (depth + 1)) members h
  have := LexesTo.append (LexesTo.append (LexesTo.append (LexesTo.append lexesTo_beginObject
    (lexesTo_newline (depth + 1))) h1) (lexesTo_newline depth)) lexesTo_endObject
  simpa using this

theorem lexesTo_marshalPVDetails (depth : Nat) (d : PVDetails) (hd : d.valid = true) :
    LexesTo (marshalPVDetails depth d) (pvDetailsTokens d) := by
  simp only [PVDetails.valid, Bool.and_eq_true] at hd
  obtain ⟨⟨h1, h2⟩, h3⟩ := hd
  have := lexesTo_objectText depth
    [(member "PVCName" (quote d.PVCName), memberTokens "PVCName" [Token.string d.PVCName]),
     (member "PVName" (quote d.PVName), memberTokens "PVName" [Token.string d.PVName]),
     (member "PVZone" (quote d.PVZone), memberTokens "PVZone" [Token.string d.PVZone])]
    (by
      intro m hm
      simp only [List.mem_cons, List.mem_singleton, List.not_mem_nil, or_false] at hm
      rcases hm with hm | hm | hm <;> subst hm
      · exact lexesTo_member _ _ _ (by decide) (lexesTo_quote _ h1)
      · exact lexesTo_member _ _ _ (by decide) (lexesTo_quote _ h2)
      · exact lexesTo_member _ _ _ (by decide) (lexesTo_quote _ h3))
  exact this

theorem lexesTo_marshalPVInfo (depth : Nat) (pvInfo : List PVDetails)
    (h : pvInfo.all PVDetails.valid = true) :
    LexesTo (marshalPVInfo depth pvInfo) (pvInfoTokens pvInfo) := by
  unfold marshalPVInfo pvInfoTokens
  split
  · exact lexesTo_null
  · apply lexesTo_arrayText
    intro d hd
    exact lexesTo_marshalPVDetails _ d (List.all_eq_true.mp h d hd)

theorem lexesTo_marshalPodInfo (depth : Nat) (info : PodInfo) (hi : info.valid = true) :
    LexesTo (marshalPodInfo depth info) (podInfoTokens info) := by
  simp only [PodInfo.valid, Bool.and_eq_true] at hi
  obtain ⟨⟨⟨h1, h2⟩, h3⟩, h4⟩ := hi
  have := lexesTo_objectText depth
    [(member "PodName" (quote info.PodName), memberTokens "PodName" [Token.string info.PodName]),
     (member "NodeName" (quote info.NodeName),
       memberTokens "NodeName" [Token.string info.NodeName]),
     (member "NodeZone" (quote info.NodeZone),
       memberTokens "NodeZone" [Token.string info.NodeZone]),
     (member "PVInfo" (marshalPVInfo (depth + 1) info.PVInfo),
       memberTokens "PVInfo" (pvInfoTokens info.PVInfo)),
     (member "ZoneMatched" (if info.ZoneMatched then lit "true" else lit "false"),
       memberTokens "ZoneMatched" [if info.ZoneMatched then Token.true else Token.false])]
    (by
      intro m hm
      simp only [List.mem_cons, List.mem_singleton, List.not_mem_nil, or_false] at hm
      rcases hm with hm | hm | hm | hm | hm <;> subst hm
      · exact lexesTo_member _ _ _ (by decide) (lexesTo_quote _ h1)
      · exact lexesTo_member _ _ _ (by decide) (lexesTo_quote _ h2)
      · exact lexesTo_member _ _ _ (by decide) (lexesTo_quote _ h3)
      · exact lexesTo_member _ _ _ (by decide) (lexesTo_marshalPVInfo _ _ h4)
      · refine lexesTo_member _ _ _ (by decide) ?_
        cases info.ZoneMatched
        · exact lexesTo_false
        · exact lexesTo_true)
  exact this

theorem lexesTo_marshal (podInfos : List PodInfo) (h : podInfos.all PodInfo.valid = true) :
    ∃ text, MarshalIndent podInfos = .ok text ∧ LexesTo text (podInfosTokens podInfos) := by
  unfold MarshalIndent podInfosTokens
  split
  · exact ⟨_, rfl, lexesTo_null⟩
  · refine ⟨_, rfl, ?_⟩
    apply lexesTo_arrayText
    intro info hi
    exact lexesTo_marshalPodInfo _ info (List.all_eq_true.mp h info hi)

theorem decodePVDetails_tokens (d : PVDetails) (fuel : Nat) (hf : 3 ≤ fuel) (rest : List Token) :
    decodePVDetails fuel (pvDetailsTokens d ++ rest) = some (d, rest) := by
  obtain ⟨f, rfl⟩ : ∃ f, fuel = f + 3 := ⟨fuel - 3, by omega⟩
  have k1 : (lit "PVName" = lit "PVCName") = False := by decide
  have k2 : (lit "PVZone" = lit "PVCName") = False := by decide
  have k3 : (lit "PVZone" = lit "PVName") = False := by decide
  simp [pvDetailsTokens, objectTokens, memberTokens, List.intercalate, List.intersperse,
    decodePVDetails, decodePVMembers, decodePVField, decodeString, k1, k2, k3]

theorem intercalate_map_cons_cons {α β : Type} (sep : List β) (g : α → List β) (x y : α)
    (ys : List α) :
    List.intercalate sep ((x :: y :: ys).map g) =
      g x ++ (sep ++ List.intercalate sep ((y :: ys).map g)) := by
  simp [List.intercalate, List.intersperse]

theorem pvDetailsTokens_head (d : PVDetails) :
    ∃ tail, pvDetailsTokens d = Token.beginObject :: Token.string (lit "PVCName") :: tail := by
  exact ⟨_, rfl⟩

theorem decodePVElems_tokens (ds : List PVDetails) (hne : ds ≠ []) :
    ∀ (fuel : Nat) (acc : List PVDetails) (rest : List Token), ds.length + 3 ≤ fuel →
      decodePVElems fuel acc
        (List.intercalate [Token.comma] (ds.map pvDetailsTokens) ++ Token.endArray :: rest) =
        some (acc ++ ds, rest) := by
  induction ds with
  | nil => exact absurd rfl hne
  | cons d tail ih =>
    intro fuel acc rest hf
    obtain ⟨f, rfl⟩ : ∃ f, fuel = f + 1 := ⟨fuel - 1, by simp at hf; omega⟩
    cases tail with
    | nil =>
      have e : List.intercalate [Token.comma] ([d].map pvDetailsTokens) = pvDetailsTokens d := by
        simp [List.intercalate]
      rw [e, decodePVElems, decodePVDetails_tokens d f (by simp at hf; omega)]
    | cons d2 ds2 =>
      rw [intercalate_map_cons_cons, List.append_assoc, decodePVElems,
        decodePVDetails_tokens d f (by simp at hf; omega)]
      simp only [List.singleton_append, List.cons_append, List.nil_append]
      rw [ih (by simp) f (acc ++ [d]) rest (by simp at hf ⊢; omega)]
      simp

theorem decodePVInfo_tokens (pvInfo : List PVDetails) (fuel : Nat)
    (hf : pvInfo.length + 3 ≤ fuel) (rest : List Token) :
    decodePVInfo fuel (pvInfoTokens pvInfo ++ rest) = some (pvInfo, rest) := by
  cases pvInfo with
  | nil => rfl
  | cons d ds =>
    have h := decodePVElems_tokens (d :: ds) (by simp) fuel [] rest hf
    have e : pvInfoTokens (d :: ds) ++ rest =
        Token.beginArray ::
          (List.intercalate [Token.comma] ((d :: ds).map pvDetailsTokens) ++
            Token.endArray :: rest) := by
      simp [pvInfoTokens, arrayTokens]
    rw [e]
    have hhead : ∃ tail, List.intercalate [Token.comma] ((d :: ds).map pvDetailsTokens) ++
        Token.endArray :: rest = Token.beginObject :: tail := by
      cases ds with
      | nil => exact ⟨_, rfl⟩
      | cons d2 ds2 =>
        rw [intercalate_map_cons_cons]
        exact ⟨_, rfl⟩
    obtain ⟨tail, ht⟩ := hhead
    rw [ht] at h ⊢
    simpa [decodePVInfo] using h

theorem podInfoTokens_eq (info : PodInfo) (rest : List Token) :
    podInfoTokens info ++ rest =
      Token.beginObject :: Token.string (lit "PodName") :: Token.colon ::
        Token.string info.PodName :: Token.comma ::
      Token.string (lit "NodeName") :: Token.colon :: Token.string info.NodeName :: Token.comma ::
      Token.string (lit "NodeZone") :: Token.colon :: Token.string info.NodeZone :: Token.comma ::
      Token.string (lit "PVInfo") :: Token.colon ::
        (pvInfoTokens info.PVInfo ++
          (Token.comma :: Token.string (lit "ZoneMatched") :: Token.colon ::
            (if info.ZoneMatched then Token.true else Token.false) ::
            Token.endObject :: rest)) := by
  simp [podInfoTokens, objectTokens, memberTokens, List.intercalate, List.intersperse]

theorem decodePodInfo_tokens (info : PodInfo) (fuel : Nat) (hf : info.PVInfo.length + 7 ≤ fuel)
    (rest : List Token) :
    decodePodInfo fuel (podInfoTokens info ++ rest) = some (info, rest) := by
  obtain ⟨f, rfl⟩ : ∃ f, fuel = f + 5 := ⟨fuel - 5, by omega⟩
  have k1 : (lit "NodeName" = lit "PodName") = False := by decide
  have k2 : (lit "NodeZone" = lit "PodName") = False := by decide
  have k3 : (lit "NodeZone" = lit "NodeName") = False := by decide
  have k4 : (lit "PVInfo" = lit "PodName") = False := by decide
  have k5 : (lit "PVInfo" = lit "NodeName") = False := by decide
  have k6 : (lit "PVInfo" = lit "NodeZone") = False := by decide
  have k7 : (lit "ZoneMatched" = lit "PodName") = False := by decide
  have k8 : (lit "ZoneMatched" = lit "NodeName") = False := by decide
  have k9 : (lit "ZoneMatched" = lit "NodeZone") = False := by decide
  have k10 : (lit "ZoneMatched" = lit "PVInfo") = False := by decide
  have hpv := decodePVInfo_tokens info.PVInfo (f + 1) (by omega)
  rw [podInfoTokens_eq]
  cases hz : info.ZoneMatched <;>
    simp [decodePodInfo, decodePodMembers, decodePodField, decodeString, decodeBool, zeroPodInfo,
      k1, k2, k3, k4, k5, k6, k7, k8, k9, k10, hpv, hz] <;>
    (cases info; simp_all)

theorem podInfoTokens_head (info : PodInfo) (rest : List Token) :
    ∃ tail, podInfoTokens info ++ rest =
      Token.beginObject :: Token.string (lit "PodName") :: tail :=
  ⟨_, podInfoTokens_eq info rest⟩

theorem decodePodElems_tokens (infos : List PodInfo) (hne : infos ≠ []) :
    ∀ (fuel : Nat) (acc : List PodInfo) (rest : List Token),
      (∀ info ∈ infos, info.PVInfo.length + infos.length + 7 ≤ fuel) →
      decodePodElems fuel acc
        (List.intercalate [Token.comma] (infos.map podInfoTokens) ++ Token.endArray :: rest) =
        some (acc ++ infos, rest) := by
  induction infos with
  | nil => exact absurd rfl hne
  | cons info tail ih =>
    intro fuel acc rest hf
    have h0 := hf info (by simp)
    obtain ⟨f, rfl⟩ : ∃ f, fuel = f + 1 := ⟨fuel - 1, by simp at h0; omega⟩
    cases tail with
    | nil =>
      have e : List.intercalate [Token.comma] ([info].map podInfoTokens) = podInfoTokens info := by
        simp [List.intercalate]
      rw [e, decodePodElems, decodePodInfo_tokens info f (by simp at h0; omega)]
    | cons i2 is2 =>
      rw [intercalate_map_cons_cons, List.append_assoc, decodePodElems,
        decodePodInfo_tokens info f (by simp at h0; omega)]
      simp only [List.singleton_append, List.cons_append, List.nil_append]
      rw [ih (by simp) f (acc ++ [info]) rest (by
        intro x hx
        have := hf x (by simp [hx])
        simp at this ⊢
        omega)]
      simp

theorem decodePodInfos_tokens (infos : List PodInfo) (fuel : Nat)
    (hf : ∀ info ∈ infos, info.PVInfo.length + infos.length + 7 ≤ fuel) (rest : List Token) :
    decodePodInfos fuel (podInfosTokens infos ++ rest) = some (infos, rest) := by
  cases infos with
  | nil => rfl
  | cons i is =>
    have h := decodePodElems_tokens (i :: is) (by simp) fuel [] rest hf
    have e : podInfosTokens (i :: is) ++ rest =
        Token.beginArray ::
          (List.intercalate [Token.comma] ((i :: is).map podInfoTokens) ++
            Token.endArray :: rest) := by
      simp [podInfosTokens, arrayTokens]
    rw [e]
    have hhead : ∃ tail, List.intercalate [Token.comma] ((i :: is).map podInfoTokens) ++
        Token.endArray :: rest = Token.beginObject :: tail := by
      cases is with
      | nil =>
        obtain ⟨t, ht⟩ := podInfoTokens_head i (Token.endArray :: rest)
        exact ⟨_, by simpa [List.intercalate] using ht⟩
      | cons i2 is2 =>
        rw [intercalate_map_cons_cons, List.append_assoc]
        obtain ⟨t, ht⟩ := podInfoTokens_head i
          ([Token.comma] ++ List.intercalate [Token.comma] ((i2 :: is2).map podInfoTokens) ++
            Token.endArray :: rest)
        exact ⟨_, by simpa using ht⟩
    obtain ⟨tail, ht⟩ := hhead
    rw [ht] at h ⊢
    simpa [decodePodInfos] using h

theorem pvInfoTokens_length (pvInfo : List PVDetails) :
    pvInfo.length ≤ (pvInfoTokens pvInfo).length := by
  unfold pvInfoTokens
  split
  · rename_i h
    have : pvInfo = [] := by simpa using h
    subst this
    simp
  · simp only [arrayTokens, List.length_append, List.length_cons, List.length_nil]
    have : pvInfo.length ≤ (List.intercalate [Token.comma] (pvInfo.map pvDetailsTokens)).length := by
      clear * -
      induction pvInfo with
      | nil => simp
      | cons d ds ih =>
        cases ds with
        | nil => simp [List.intercalate, pvDetailsTokens, objectTokens, memberTokens]
        | cons d2 ds2 =>
          rw [intercalate_map_cons_cons]
          simp only [List.length_append, List.length_cons, List.length_nil] at ih ⊢
          omega
    omega

theorem podInfoTokens_length (info : PodInfo) :
    info.PVInfo.length + 20 ≤ (podInfoTokens info).length := by
  have h := pvInfoTokens_length info.PVInfo
  have e := congrArg List.length (podInfoTokens_eq info [])
  simp only [List.append_nil, List.length_cons, List.length_append, List.length_nil] at e
  omega

theorem intercalate_podInfoTokens_length (infos : List PodInfo) :
    8 * infos.length ≤ (List.intercalate [Token.comma] (infos.map podInfoTokens)).length ∧
    ∀ info ∈ infos, info.PVInfo.length + 8 * infos.length ≤
      (List.intercalate [Token.comma] (infos.map podInfoTokens)).length := by
  induction infos with
  | nil => simp
  | cons i is ih =>
    have hi := podInfoTokens_length i
    cases is with
    | nil =>
      have e : List.intercalate [Token.comma] ([i].map podInfoTokens) = podInfoTokens i := by
        simp [List.intercalate]
      rw [e]
      refine ⟨by simp; omega, ?_⟩
      intro info hinfo
      simp only [List.mem_singleton] at hinfo
      subst hinfo
      simp
      omega
    | cons i2 is2 =>
      rw [intercalate_map_cons_cons]
      obtain ⟨ih1, ih2⟩ := ih
      simp only [List.length_append, List.length_cons, List.length_nil] at ih1 ih2 ⊢
      refine ⟨by omega, ?_⟩
      intro info hinfo
      simp only [List.mem_cons] at hinfo
      rcases hinfo with h | h
      · subst h
        omega
      · have := ih2 info (by simpa using h)
        omega

theorem podInfosTokens_fuel (infos : List PodInfo) :
    ∀ info ∈ infos, info.PVInfo.length + infos.length + 7 ≤ (podInfosTokens infos).length := by
  intro info hinfo
  have hne : infos ≠ [] := List.ne_nil_of_mem hinfo
  have hpos : 0 < infos.length := List.length_pos.mpr hne
  have h := (intercalate_podInfoTokens_length infos).2 info hinfo
  unfold podInfosTokens
  rw [if_neg (by simpa using hne)]
  simp only [arrayTokens, List.length_append, List.length_cons, List.length_nil]
  omega

theorem unmarshal_of_lexesTo (text : GoString) (infos : List PodInfo)
    (h : LexesTo text (podInfosTokens infos)) : Unmarshal (text ++ lit "\n") = some infos := by
  have h1 : lex 0 (text ++ lit "\n") = some (podInfosTokens infos) := by
    rw [h]
    have : lex 0 (lit "\n") = some [] := by rfl
    rw [this]
    simp
  have h2 := decodePodInfos_tokens infos (podInfosTokens infos).length (podInfosTokens_fuel infos) []
  rw [List.append_nil] at h2
  simp only [Unmarshal, h1, h2]

/-! # The claims -/

/-! ## C1: the zone-match verdict -/

/-- C1, as stated, fails: on the example cluster the pod `pod-x` sits on a node
without zone label and mounts a volume without zone label; all its lookups
succeed, both zones are the empty string, and `ZoneMatched` is `true` although no
volume has a non-empty zone equal to the node zone. -/
theorem zoneMatched_true_on_two_empty_zones :
    (∀ call ∈ (podBody exampleCluster podX []).calls, exampleCluster.fails call = false) ∧
    ∃ info : PodInfo,
      (podBody exampleCluster podX []).value = .ok info ∧
      info.NodeZone = [] ∧ (∀ v ∈ info.PVInfo, v.PVZone = []) ∧
      info.ZoneMatched = true ∧
      ¬ ∃ v ∈ info.PVInfo, v.PVZone ≠ [] ∧ v.PVZone = info.NodeZone := by
  refine ⟨by decide, ⟨lit "pod-x", lit "node-x", [], [⟨lit "data-x", lit "pv-x", []⟩], true⟩,
    by rfl, rfl, ?_, rfl, ?_⟩
  · decide
  · decide

/-- C1 (amended): for every pod whose node, claim and volume lookups all succeed,
the per-pod loop returns a `PodInfo`, and its `ZoneMatched` is `true` if and only
if some entry `v` of its `PVInfo` has `v.PVZone` equal to `NodeZone` (equality of
the byte strings, so case-sensitive; two empty zones are equal). -/
theorem zoneMatched_iff_some_zone_equal (c : Clientset) (pod : Pod) (calls : List Call)
    (hok : ∀ call ∈ (podBody c pod []).calls, c.fails call = false) :
    ∃ info : PodInfo,
      (podBody c pod calls).value = .ok info ∧
      (info.ZoneMatched = true ↔ ∃ v ∈ info.PVInfo, v.PVZone = info.NodeZone) := by
  obtain ⟨info, hv⟩ := (podBody_value_of_calls c pod).mpr hok
  obtain ⟨node, details, _, hinfo, _, _⟩ := podBody_ok_shape c pod info hv
  refine ⟨info, by rw [podBody_from, hv], ?_⟩
  subst hinfo
  simp [List.any_eq_true]

theorem zoneMatched_iff_some_zone_equal_witness :
    (∀ call ∈ (podBody exampleCluster podB []).calls, exampleCluster.fails call = false) ∧
    ∃ info : PodInfo,
      (podBody exampleCluster podB []).value = .ok info ∧
      (info.ZoneMatched = true ↔ ∃ v ∈ info.PVInfo, v.PVZone = info.NodeZone) :=
  ⟨by decide, zoneMatched_iff_some_zone_equal exampleCluster podB [] (by decide)⟩

/-! ## C2: unscheduled pods -/

/-- C2, as stated, fails: for the unscheduled pod `pod-c` (empty node name) the
loop does look up the node named `""`, and on the example cluster, where that
lookup fails, the run fails instead of returning a record. -/
theorem unscheduled_pod_is_looked_up :
    podUnscheduled.Spec.NodeName = [] ∧
    Call.node [] ∈ (podBody exampleCluster podUnscheduled []).calls ∧
    (podBody exampleCluster podUnscheduled []).value = .error (lit "not found") := by
  refine ⟨rfl, by decide, by rfl⟩

/-- C2 (amended): for every pod record with `Spec.NodeName == ""` the per-pod loop
looks up the node named `""` like any other, as the first lookup of the pod.  If
that lookup fails the run fails with its error and nothing else is looked up; if
it succeeds and the pod's record is built, `NodeZone` is the zone label of the
node the collaborator returned (`""` when the label is absent), and `ZoneMatched`
is `true` exactly when some entry of `PVInfo` has that zone. -/
theorem unscheduled_pod_lookup (c : Clientset) (pod : Pod) (calls : List Call)
    (hname : pod.Spec.NodeName = []) :
    (∃ made, (podBody c pod calls).calls = calls ++ Call.node [] :: made) ∧
    (∀ err, c.getNode [] = .error err →
      podBody c pod calls = ⟨.error err, calls ++ [Call.node []]⟩) ∧
    (∀ node info, c.getNode [] = .ok node → (podBody c pod calls).value = .ok info →
      info.NodeName = [] ∧ info.NodeZone = node.Labels.get zoneKey ∧
      (info.ZoneMatched = true ↔ ∃ v ∈ info.PVInfo, v.PVZone = info.NodeZone)) := by
  refine ⟨?_, ?_, ?_⟩
  · obtain ⟨made, h1, _⟩ := podBody_spec c pod
    exact ⟨made, by rw [podBody_from, h1, hname]⟩
  · intro err herr
    simp [podBody, hname, herr]
  · intro node info hnode hv
    rw [podBody_from] at hv
    obtain ⟨node2, details, hn, hinfo, _, _⟩ := podBody_ok_shape c pod info hv
    rw [hname, hnode] at hn
    injection hn with hn
    subst hn
    subst hinfo
    simp [List.any_eq_true, hname]

theorem unscheduled_pod_lookup_witness :
    podUnscheduled.Spec.NodeName = [] ∧
    podBody exampleCluster podUnscheduled [] = ⟨.error (lit "not found"), [] ++ [Call.node []]⟩ :=
  ⟨rfl, (unscheduled_pod_lookup exampleCluster podUnscheduled [] rfl).2.1 (lit "not found") (by rfl)⟩


/-! ## C3: claims that are not bound -/

/-- C3, as stated, fails: the pod `pod-d` mounts the claim `data-pending`, which is
fetched successfully and has an empty volume name; the loop then fetches the
volume named `""`, and on the example cluster, where that lookup fails, the run
fails instead of yielding a `PVDetails`. -/
theorem unbound_claim_is_looked_up :
    exampleCluster.getPVC podPending.Namespace (lit "data-pending") =
      .ok { Spec := { VolumeName := [] } } ∧
    (podBody exampleCluster podPending []).calls =
      [Call.node (lit "node-a"), Call.claim (lit "default") (lit "data-pending"),
        Call.volume []] ∧
    (podBody exampleCluster podPending []).value = .error (lit "not found") := by
  refine ⟨by rfl, by rfl, by rfl⟩

/-- C3 (amended): for every claim-backed volume of a pod whose claim is fetched
successfully and has an empty bound volume name, volume resolution fetches the
volume named `""` from the collaborator.  Whenever the loop reaches that volume
(the node and everything before the volume were found), the lookup of `""` is
made right after the claim lookup; if it fails, the run fails with its error
and nothing further is looked up; if it succeeds, the loop goes on with the
entry `PVDetails{PVCName: <claim name>, PVName: "", PVZone: <value of the label
topology.kubernetes.io/zone of the returned volume, "" when absent>}` appended
and `ZoneMatched` set when that zone equals `NodeZone`.  So the run fails if the
lookup of `""` fails, and a record that is built has that entry at the position
of the volume among the claim-backed volumes. -/
theorem unbound_claim_lookup (c : Clientset) (pod : Pod) (calls : List Call)
    (before after : List Volume) (volume : Volume)
    (src : PersistentVolumeClaimVolumeSource) (pvc : PersistentVolumeClaim)
    (hvols : pod.Spec.Volumes = before ++ volume :: after)
    (hsrc : volume.PersistentVolumeClaim = some src)
    (hpvc : c.getPVC pod.Namespace src.ClaimName = .ok pvc)
    (hname : pvc.Spec.VolumeName = []) :
    (∀ node, c.getNode pod.Spec.NodeName = .ok node →
      (∀ s ∈ claimSources before, ∃ p v,
        c.getPVC pod.Namespace s.ClaimName = .ok p ∧ c.getPV p.Spec.VolumeName = .ok v) →
      ∃ details : List PVDetails,
        details.length = (claimSources before).length ∧
        (∃ made, (podBody c pod calls).calls =
          calls ++ Call.node pod.Spec.NodeName :: detailCalls pod.Namespace details ++
            Call.claim pod.Namespace src.ClaimName :: Call.volume [] :: made) ∧
        (∀ err, c.getPV [] = .error err →
          podBody c pod calls =
            ⟨.error err,
              calls ++ Call.node pod.Spec.NodeName :: detailCalls pod.Namespace details ++
                [Call.claim pod.Namespace src.ClaimName, Call.volume []]⟩) ∧
        (∀ pv nodeZone pvZone, c.getPV [] = .ok pv →
          nodeZone = (match List.lookup (lit "topology.kubernetes.io/zone") node.Labels with
                      | some zone => zone
                      | none => []) →
          pvZone = (match List.lookup (lit "topology.kubernetes.io/zone") pv.Labels with
                    | some zone => zone
                    | none => []) →
          podBody c pod calls =
            volumeLoop c pod after
              { PodName := pod.Name
                NodeName := pod.Spec.NodeName
                NodeZone := nodeZone
                PVInfo := details ++ [{ PVCName := src.ClaimName, PVName := [],
                                        PVZone := pvZone }]
                ZoneMatched :=
                  details.any (fun d => decide (d.PVZone = nodeZone)) ||
                    decide (pvZone = nodeZone) }
              (calls ++ Call.node pod.Spec.NodeName :: detailCalls pod.Namespace details ++
                [Call.claim pod.Namespace src.ClaimName, Call.volume []]))) ∧
    (isError (c.getPV []) = true → isError (podBody c pod calls).value = true) ∧
    (∀ info, (podBody c pod calls).value = .ok info →
      ∃ pv pvZone,
        c.getPV [] = .ok pv ∧
        pvZone = (match List.lookup (lit "topology.kubernetes.io/zone") pv.Labels with
                  | some zone => zone
                  | none => []) ∧
        Call.volume [] ∈ (podBody c pod []).calls ∧
        info.PVInfo[(claimSources before).length]? =
          some { PVCName := src.ClaimName, PVName := [], PVZone := pvZone } ∧
        (pvZone = info.NodeZone → info.ZoneMatched = true)) := by
  have hidx : (claimSources pod.Spec.Volumes)[(claimSources before).length]? = some src := by
    rw [hvols]
    exact claimSources_split before after volume src hsrc
  have key : ∀ info, (podBody c pod calls).value = .ok info →
      ∃ pv pvZone,
        c.getPV [] = .ok pv ∧
        pvZone = (match List.lookup (lit "topology.kubernetes.io/zone") pv.Labels with
                  | some zone => zone
                  | none => []) ∧
        Call.volume [] ∈ (podBody c pod []).calls ∧
        info.PVInfo[(claimSources before).length]? =
          some { PVCName := src.ClaimName, PVName := [], PVZone := pvZone } ∧
        (pvZone = info.NodeZone → info.ZoneMatched = true) := by
    intro info hv
    rw [podBody_from] at hv
    obtain ⟨node, details, _, hinfo, hcalls, hf⟩ := podBody_ok_shape c pod info hv
    obtain ⟨d, hd, pvc2, pv, h1, h2, h3⟩ := forall2_index hf _ src hidx
    rw [hpvc] at h1
    injection h1 with h1
    subst h1
    rw [hname] at h2 h3
    have hmem : d ∈ details := List.getElem?_mem hd
    refine ⟨pv, pv.Labels.get zoneKey, h2, zone_lookup pv.Labels, ?_, ?_, ?_⟩
    · rw [hcalls]
      simp only [List.mem_cons, detailCalls, List.mem_flatMap]
      right
      exact ⟨d, hmem, by simp [h3]⟩
    · rw [hinfo, ← h3]
      exact hd
    · intro hz
      rw [hinfo] at hz ⊢
      simp only [List.any_eq_true, decide_eq_true_eq]
      exact ⟨d, hmem, by rw [h3]; exact hz⟩
  refine ⟨?_, ?_, key⟩
  · intro node hnode hbefore
    obtain ⟨details, hl, herr, hok⟩ :=
      podBody_reaches c pod calls before after volume src pvc node hvols hsrc hpvc hnode hbefore
    rw [hname] at herr hok
    refine ⟨details, hl, ?_, herr, ?_⟩
    · cases hpv : c.getPV [] with
      | error err =>
        refine ⟨[], ?_⟩
        rw [herr err hpv]
      | ok pv =>
        obtain ⟨made, hm, _⟩ := volumeLoop_spec c pod after
          { PodName := pod.Name, NodeName := pod.Spec.NodeName,
            NodeZone := node.Labels.get zoneKey,
            PVInfo := details ++ [{ PVCName := src.ClaimName, PVName := [],
                                    PVZone := pv.Labels.get zoneKey }],
            ZoneMatched :=
              details.any (fun d => decide (d.PVZone = node.Labels.get zoneKey)) ||
                decide (pv.Labels.get zoneKey = node.Labels.get zoneKey) }
          (calls ++ Call.node pod.Spec.NodeName :: detailCalls pod.Namespace details ++
            [Call.claim pod.Namespace src.ClaimName, Call.volume []])
        refine ⟨made, ?_⟩
        rw [hok pv hpv, hm]
        simp
    · intro pv nodeZone pvZone hpv hnz hpz
      rw [hok pv hpv, hnz, hpz, ← zone_lookup, ← zone_lookup]
  · intro herr
    cases hv : (podBody c pod calls).value with
    | error err => rfl
    | ok info =>
      obtain ⟨pv, _, hpv, _⟩ := key info hv
      rw [hpv] at herr
      simp [isError] at herr

theorem unbound_claim_lookup_witness :
    podMixed.Spec.Volumes =
      [claimVolume (lit "data") (lit "data-a"), otherVolume (lit "config")] ++
        claimVolume (lit "scratch") (lit "data-pending") ::
          [claimVolume (lit "logs") (lit "data-x")] ∧
    exampleCluster.getPVC podMixed.Namespace (lit "data-pending") =
      .ok { Spec := { VolumeName := [] } } ∧
    (∃ details : List PVDetails,
      details.length =
        (claimSources [claimVolume (lit "data") (lit "data-a"),
          otherVolume (lit "config")]).length ∧
      podBody exampleCluster podMixed [] =
        ⟨.error (lit "not found"),
          [] ++ Call.node podMixed.Spec.NodeName :: detailCalls podMixed.Namespace details ++
            [Call.claim podMixed.Namespace (lit "data-pending"), Call.volume []]⟩) ∧
    podBody exampleCluster podMixed [] =
      ⟨.error (lit "not found"),
        [Call.node (lit "node-b"), Call.claim (lit "default") (lit "data-a"),
          Call.volume (lit "pv-a"), Call.claim (lit "default") (lit "data-pending"),
          Call.volume []]⟩ ∧
    podBody lenientCluster podMixed [] =
      ⟨.ok ⟨lit "pod-f", lit "node-b", lit "us-east-1b",
          [⟨lit "data-a", lit "pv-a", lit "us-east-1a"⟩, ⟨lit "data-pending", [], lit "us-east-1b"⟩,
            ⟨lit "data-x", lit "pv-x", []⟩], true⟩,
        [Call.node (lit "node-b"), Call.claim (lit "default") (lit "data-a"),
          Call.volume (lit "pv-a"), Call.claim (lit "default") (lit "data-pending"),
          Call.volume [], Call.claim (lit "default") (lit "data-x"),
          Call.volume (lit "pv-x")]⟩ := by
  refine ⟨rfl, by rfl, ?_, by rfl, by rfl⟩
  obtain ⟨details, hl, _, herr, _⟩ :=
    (unbound_claim_lookup exampleCluster podMixed []
      [claimVolume (lit "data") (lit "data-a"), otherVolume (lit "config")]
      [claimVolume (lit "logs") (lit "data-x")]
      (claimVolume (lit "scratch") (lit "data-pending")) { ClaimName := lit "data-pending" }
      { Spec := { VolumeName := [] } } rfl rfl (by rfl) rfl).1
      { Labels := zoneLabels (lit "us-east-1b") } (by rfl)
      (by
        intro s hs
        have hs2 : s = { ClaimName := lit "data-a" } := by
          simpa [claimSources, claimVolume, otherVolume] using hs
        subst hs2
        exact ⟨{ Spec := { VolumeName := lit "pv-a" } },
          { Labels := zoneLabels (lit "us-east-1a") }, by rfl, by rfl⟩)
  exact ⟨details, hl, herr (lit "not found") (by rfl)⟩

/-! ## C4: one entry per claim-backed volume -/

/-- C4: for every pod whose lookups all succeed, the per-pod loop returns a
`PodInfo` whose `PVInfo` has exactly one entry per volume of `pod.Spec.Volumes`
with a non-nil `PersistentVolumeClaim`, in declaration order, and nothing for
other volumes: the lengths agree, and the `i`-th entry has as `PVCName` the claim
name of the `i`-th claim-backed volume, as `PVName` the `Spec.VolumeName` of the
fetched claim, and as `PVZone` the value bound to the key
`topology.kubernetes.io/zone` in the labels of the fetched volume (`""` when the
key is absent). -/
theorem pvInfo_one_entry_per_claim (c : Clientset) (pod : Pod) (calls : List Call)
    (hok : ∀ call ∈ (podBody c pod []).calls, c.fails call = false) :
    ∃ info : PodInfo,
      (podBody c pod calls).value = .ok info ∧
      info.PVInfo.length =
        (pod.Spec.Volumes.filter (fun v => v.PersistentVolumeClaim.isSome)).length ∧
      info.PVInfo.length = (claimSources pod.Spec.Volumes).length ∧
      ∀ (i : Nat) (src : PersistentVolumeClaimVolumeSource),
        (claimSources pod.Spec.Volumes)[i]? = some src →
        ∃ pvc pv,
          c.getPVC pod.Namespace src.ClaimName = .ok pvc ∧
          c.getPV pvc.Spec.VolumeName = .ok pv ∧
          info.PVInfo[i]? = some
            { PVCName := src.ClaimName
              PVName := pvc.Spec.VolumeName
              PVZone := (match List.lookup (lit "topology.kubernetes.io/zone") pv.Labels with
                         | some zone => zone
                         | none => []) } := by
  obtain ⟨info, hv⟩ := (podBody_value_of_calls c pod).mpr hok
  obtain ⟨node, details, _, hinfo, _, hf⟩ := podBody_ok_shape c pod info hv
  have hlen : info.PVInfo.length = (claimSources pod.Spec.Volumes).length := by
    rw [hinfo]; exact hf.length_eq.symm
  refine ⟨info, by rw [podBody_from, hv], ?_, hlen, ?_⟩
  · rw [hlen]
    simp only [claimSources]
    generalize pod.Spec.Volumes = vs
    induction vs with
    | nil => rfl
    | cons v rest ih =>
      cases hv : v.PersistentVolumeClaim <;> simp [List.filterMap_cons, List.filter_cons, hv, ih]
  · intro i src hsrc
    obtain ⟨d, hd, pvc, pv, h1, h2, h3⟩ := forall2_index hf i src hsrc
    refine ⟨pvc, pv, h1, h2, ?_⟩
    rw [← zone_lookup, hinfo, ← h3]
    exact hd

theorem pvInfo_one_entry_per_claim_witness :
    (∀ call ∈ (podBody exampleCluster podTwoClaims []).calls,
      exampleCluster.fails call = false) ∧
    (podBody exampleCluster podTwoClaims []).value =
      .ok ⟨lit "pod-g", lit "node-a", lit "us-east-1a",
        [⟨lit "data-a", lit "pv-a", lit "us-east-1a"⟩, ⟨lit "data-x", lit "pv-x", []⟩], true⟩ ∧
    ∃ info : PodInfo,
      (podBody exampleCluster podTwoClaims []).value = .ok info ∧
      info.PVInfo.length =
        (podTwoClaims.Spec.Volumes.filter (fun v => v.PersistentVolumeClaim.isSome)).length ∧
      info.PVInfo.length = (claimSources podTwoClaims.Spec.Volumes).length ∧
      ∀ (i : Nat) (src : PersistentVolumeClaimVolumeSource),
        (claimSources podTwoClaims.Spec.Volumes)[i]? = some src →
        ∃ pvc pv,
          exampleCluster.getPVC podTwoClaims.Namespace src.ClaimName = .ok pvc ∧
          exampleCluster.getPV pvc.Spec.VolumeName = .ok pv ∧
          info.PVInfo[i]? = some
            { PVCName := src.ClaimName
              PVName := pvc.Spec.VolumeName
              PVZone := (match List.lookup (lit "topology.kubernetes.io/zone") pv.Labels with
                         | some zone => zone
                         | none => []) } :=
  ⟨by decide, by rfl, pvInfo_one_entry_per_claim exampleCluster podTwoClaims [] (by decide)⟩

/-! ## C9: pods without claim-backed volumes -/

/-- C9: for every pod without claim-backed volume (every volume of
`pod.Spec.Volumes`, if any, has a nil `PersistentVolumeClaim`) whose node lookup
succeeds, the per-pod loop returns a `PodInfo` with empty `PVInfo` and
`ZoneMatched == false`, whatever the zone of the node, and the only lookup made
is the node lookup: no claim and no volume is looked up. -/
theorem pod_without_claims (c : Clientset) (pod : Pod) (calls : List Call) (node : Node)
    (hnone : ∀ volume ∈ pod.Spec.Volumes, volume.PersistentVolumeClaim = none)
    (hnode : c.getNode pod.Spec.NodeName = .ok node) :
    ∃ info : PodInfo,
      (podBody c pod calls).value = .ok info ∧
      info.PVInfo = [] ∧ info.ZoneMatched = false ∧
      info.NodeZone = node.Labels.get zoneKey ∧
      (podBody c pod calls).calls = calls ++ [Call.node pod.Spec.NodeName] ∧
      (∀ ns name, Call.claim ns name ∉ (podBody c pod []).calls) ∧
      (∀ name, Call.volume name ∉ (podBody c pod []).calls) := by
  have h : ∀ calls, podBody c pod calls =
      ⟨.ok { PodName := pod.Name, NodeName := pod.Spec.NodeName,
             NodeZone := node.Labels.get zoneKey, PVInfo := [], ZoneMatched := false },
        calls ++ [Call.node pod.Spec.NodeName]⟩ := by
    intro calls
    simp only [podBody, hnode]
    rw [volumeLoop_no_claims c pod pod.Spec.Volumes hnone]
  refine ⟨_, by rw [h], rfl, rfl, rfl, by rw [h], ?_, ?_⟩
  · intro ns name
    rw [h]
    simp
  · intro name
    rw [h]
    simp

theorem pod_without_claims_witness :
    (∀ volume ∈ podPlain.Spec.Volumes, volume.PersistentVolumeClaim = none) ∧
    ∃ info : PodInfo,
      (podBody exampleCluster podPlain []).value = .ok info ∧
      info.PVInfo = [] ∧ info.ZoneMatched = false ∧
      info.NodeZone = (zoneLabels (lit "us-east-1a")).get zoneKey ∧
      (podBody exampleCluster podPlain []).calls = [] ++ [Call.node podPlain.Spec.NodeName] ∧
      (∀ ns name, Call.claim ns name ∉ (podBody exampleCluster podPlain []).calls) ∧
      (∀ name, Call.volume name ∉ (podBody exampleCluster podPlain []).calls) :=
  ⟨by decide, pod_without_claims exampleCluster podPlain [] { Labels := zoneLabels (lit "us-east-1a") }
    (by decide) (by rfl)⟩


/-! ## C8: the report keeps the pods in order -/

/-- C8: for every sequence of pod records for which all lookups succeed, the
per-pod loop returns a `PodInfo` sequence of the same length in the same order:
its `i`-th element has the name and the `Spec.NodeName` of the `i`-th pod as
`PodName` and `NodeName`, and as `NodeZone` the value bound to the key
`topology.kubernetes.io/zone` in the labels of that pod's node (`""` when the
key is absent). -/
theorem podInfos_in_input_order (c : Clientset) (pods : List Pod)
    (hok : ∀ call ∈ (podLoop c pods [] []).calls, c.fails call = false) :
    ∃ podInfos : List PodInfo,
      (podLoop c pods [] []).value = .ok podInfos ∧
      podInfos.length = pods.length ∧
      ∀ (i : Nat) (pod : Pod), pods[i]? = some pod →
        ∃ node info,
          c.getNode pod.Spec.NodeName = .ok node ∧
          podInfos[i]? = some info ∧
          info.PodName = pod.Name ∧
          info.NodeName = pod.Spec.NodeName ∧
          info.NodeZone =
            (match List.lookup (lit "topology.kubernetes.io/zone") node.Labels with
             | some zone => zone
             | none => []) := by
  obtain ⟨_, h2, _⟩ := podLoop_spec c pods [] []
  obtain ⟨news, hv, hf⟩ := h2 hok
  refine ⟨news, by simpa using hv, hf.length_eq.symm, ?_⟩
  intro i pod hpod
  obtain ⟨info, hinfo, hbody⟩ := forall2_index hf i pod hpod
  obtain ⟨node, details, hn, hshape, _, _⟩ := podBody_ok_shape c pod info hbody
  exact ⟨node, info, hn, hinfo, by rw [hshape], by rw [hshape],
    by rw [← zone_lookup, hshape]⟩

theorem podInfos_in_input_order_witness :
    (∀ call ∈ (podLoop exampleCluster [podA, podB, podX] [] []).calls,
      exampleCluster.fails call = false) ∧
    (podLoop exampleCluster [podA, podB, podX] [] []).value =
      .ok [⟨lit "pod-a", lit "node-a", lit "us-east-1a",
              [⟨lit "data-a", lit "pv-a", lit "us-east-1a"⟩], true⟩,
           ⟨lit "pod-b", lit "node-b", lit "us-east-1b",
              [⟨lit "data-a", lit "pv-a", lit "us-east-1a"⟩], false⟩,
           ⟨lit "pod-x", lit "node-x", [], [⟨lit "data-x", lit "pv-x", []⟩], true⟩] ∧
    ∃ podInfos : List PodInfo,
      (podLoop exampleCluster [podA, podB, podX] [] []).value = .ok podInfos ∧
      podInfos.length = [podA, podB, podX].length ∧
      ∀ (i : Nat) (pod : Pod), [podA, podB, podX][i]? = some pod →
        ∃ node info,
          exampleCluster.getNode pod.Spec.NodeName = .ok node ∧
          podInfos[i]? = some info ∧
          info.PodName = pod.Name ∧
          info.NodeName = pod.Spec.NodeName ∧
          info.NodeZone =
            (match List.lookup (lit "topology.kubernetes.io/zone") node.Labels with
             | some zone => zone
             | none => []) :=
  ⟨by decide, by rfl, podInfos_in_input_order exampleCluster [podA, podB, podX] (by decide)⟩

/-! ## C5: all or nothing -/

/-- C5: report building is all-or-nothing.  For every pod sequence: if some
node, claim or volume lookup made during the run fails, the run panics and
standard output stays empty (nothing is rendered, not even for the pods already
correlated); so output is produced only if every lookup made succeeded; and if
every lookup succeeds, the renderer chosen by the output format is applied to
the `PodInfo` sequence of all pods. -/
theorem report_all_or_nothing (tabfmt : GoString → GoString) (c : Clientset) (outputFormat : GoString)
    (pods : List Pod) :
    ((∃ call ∈ (main tabfmt c outputFormat pods).calls, c.fails call = true) →
      (main tabfmt c outputFormat pods).panicked ≠ none ∧
      (main tabfmt c outputFormat pods).stdout = []) ∧
    ((main tabfmt c outputFormat pods).stdout ≠ [] →
      ∀ call ∈ (main tabfmt c outputFormat pods).calls, c.fails call = false) ∧
    ((∀ call ∈ (main tabfmt c outputFormat pods).calls, c.fails call = false) →
      ∃ podInfos : List PodInfo,
        (podLoop c pods [] []).value = .ok podInfos ∧
        podInfos.length = pods.length ∧
        (∀ stdout, render tabfmt outputFormat podInfos [] = .ok stdout →
          (main tabfmt c outputFormat pods).stdout = stdout ∧
          (main tabfmt c outputFormat pods).panicked = none)) := by
  have hfail : (∃ call ∈ (main tabfmt c outputFormat pods).calls, c.fails call = true) →
      (main tabfmt c outputFormat pods).panicked ≠ none ∧
      (main tabfmt c outputFormat pods).stdout = [] := by
    intro hbad
    rw [main_calls] at hbad
    obtain ⟨_, _, h3⟩ := podLoop_spec c pods [] []
    exact main_of_error tabfmt c outputFormat pods (h3 hbad)
  refine ⟨hfail, ?_, ?_⟩
  · intro hout
    rcases not_fails_or_fails c (main tabfmt c outputFormat pods).calls with h | h
    · exact h
    · exact absurd (hfail h).2 hout
  · intro hok
    rw [main_calls] at hok
    obtain ⟨_, h2, _⟩ := podLoop_spec c pods [] []
    obtain ⟨news, hv, hf⟩ := h2 hok
    have hv2 : (podLoop c pods [] []).value = .ok news := by simpa using hv
    refine ⟨news, hv2, hf.length_eq.symm, ?_⟩
    intro stdout hr
    rw [main_of_ok tabfmt c outputFormat pods news hv2, hr]
    exact ⟨rfl, rfl⟩


theorem report_all_or_nothing_witness :
    (∃ call ∈ (main (fun text => text) exampleCluster (lit "text") [podA, podPending]).calls,
      exampleCluster.fails call = true) ∧
    (main (fun text => text) exampleCluster (lit "text") [podA, podPending]).panicked ≠ none ∧
    (main (fun text => text) exampleCluster (lit "text") [podA, podPending]).stdout = [] :=
  ⟨by decide,
    (report_all_or_nothing (fun text => text) exampleCluster (lit "text") [podA, podPending]).1
      (by decide)⟩

/-! ## C6: the table -/

/-- C6: for every `PodInfo` sequence, `printTable` hands the tab writer the header
row with the seven columns POD, NODE, NODE ZONE, ZONE MATCHED, PVC, PV, PV ZONE,
followed by exactly one data row per (pod, volume) pair, pods in input order
and the volumes of a pod in `PVInfo` order, each row carrying the pod's
`PodName`, `NodeName`, `NodeZone`, `ZoneMatched` and the volume's `PVCName`,
`PVName`, `PVZone`, and flushes the writer to standard output; the number of
data rows is the sum of `len(PVInfo)` over all pods (none for a pod without
volumes). -/
theorem printTable_one_row_per_volume (tabfmt : GoString → GoString)
    (podInfos : List PodInfo) (stdout : GoString) :
    ∃ rows : List GoString,
      printTable tabfmt podInfos stdout =
        stdout ++ tabfmt
          ((List.intercalate (lit "\t")
              [lit "POD", lit "NODE", lit "NODE ZONE", lit "ZONE MATCHED", lit "PVC", lit "PV",
                lit "PV ZONE"] ++ lit "\n") ++ rows.flatten) ∧
      rows = podInfos.flatMap (fun p => p.PVInfo.map (fun v =>
        List.intercalate (lit "\t")
          [p.PodName, p.NodeName, p.NodeZone, (if p.ZoneMatched then lit "true" else lit "false"),
            v.PVCName, v.PVName, v.PVZone] ++ lit "\n")) ∧
      rows.length = (podInfos.map (fun p => p.PVInfo.length)).sum := by
  have hrow : ∀ (p : PodInfo) (v : PVDetails),
      List.intercalate (lit "\t")
          [p.PodName, p.NodeName, p.NodeZone, (if p.ZoneMatched then lit "true" else lit "false"),
            v.PVCName, v.PVName, v.PVZone] ++ lit "\n" = tableRow p v := by
    intro p v
    simp [tableRow, fmtBool, List.intercalate, List.intersperse]
  have hhead : List.intercalate (lit "\t")
      [lit "POD", lit "NODE", lit "NODE ZONE", lit "ZONE MATCHED", lit "PVC", lit "PV",
        lit "PV ZONE"] ++ lit "\n" = tableHeader := by decide
  refine ⟨tableRows podInfos, ?_, ?_, tableRows_length podInfos⟩
  · rw [hhead]
    simp [printTable, TabWriter.Fprint, tableLoop_eq]
  · simp only [hrow]
    rfl

/-! ## C7: the text lines -/

/-- C7: for every `PodInfo` sequence, `printText` writes one line per pod, whatever
the number of its volumes, in input order, and the line of pod `p` is exactly
`Pod: <p.PodName>, Node: <p.NodeName>, Node Zone: <p.NodeZone>, Zone Matched:
<true|false>` followed by a newline.  The number of lines written is the number of
pods; when no name or zone contains a newline byte, that is also the number of
newline bytes written. -/
theorem printText_one_line_per_pod (podInfos : List PodInfo) (stdout : GoString) :
    ∃ lines : List GoString,
      printText podInfos stdout = stdout ++ lines.flatten ∧
      lines = podInfos.map (fun p =>
        lit "Pod: " ++ p.PodName ++ lit ", Node: " ++ p.NodeName ++ lit ", Node Zone: " ++
          p.NodeZone ++ lit ", Zone Matched: " ++
          (if p.ZoneMatched then lit "true" else lit "false") ++ lit "\n") ∧
      lines.length = podInfos.length ∧
      ((∀ p ∈ podInfos, 10 ∉ p.PodName ∧ 10 ∉ p.NodeName ∧ 10 ∉ p.NodeZone) →
        lines.flatten.count 10 = podInfos.length) := by
  refine ⟨podInfos.map textLine, printText_eq podInfos stdout, rfl, by simp, ?_⟩
  exact count_flatten_textLine podInfos

theorem printText_one_line_per_pod_witness :
    ∃ lines : List GoString,
      printText [⟨lit "pod-a", lit "node-a", lit "us-east-1a", [], false⟩,
          ⟨lit "pod-b", lit "node-b", [], [⟨lit "data", lit "pv-a", lit "us-east-1a"⟩], false⟩] [] =
        [] ++ lines.flatten ∧
      lines = [lit "Pod: pod-a, Node: node-a, Node Zone: us-east-1a, Zone Matched: false\n",
        lit "Pod: pod-b, Node: node-b, Node Zone: , Zone Matched: false\n"] ∧
      lines.flatten.count 10 = 2 := by
  obtain ⟨lines, h1, h2, _, h4⟩ := printText_one_line_per_pod
    [⟨lit "pod-a", lit "node-a", lit "us-east-1a", [], false⟩,
      ⟨lit "pod-b", lit "node-b", [], [⟨lit "data", lit "pv-a", lit "us-east-1a"⟩], false⟩] []
  refine ⟨lines, h1, ?_, h4 (by decide)⟩
  rw [h2]
  decide

/-! ## C10: the JSON round trip -/

/-- C10, as stated, fails: a `PodInfo` whose `PodName` is the single byte `0xFF`
(not valid UTF-8) is printed by `printJSON` with the name `"\\ufffd"`, and
parsing that text yields the name U+FFFD (bytes `EF BF BD`), not the input. -/
theorem json_round_trip_loses_invalid_bytes :
    validUTF8 [0xFF] = false ∧
    ∃ text,
      printJSON [⟨[0xFF], lit "node-a", lit "us-east-1a", [], false⟩] [] = .ok text ∧
      Unmarshal text =
        some [⟨[0xEF, 0xBF, 0xBD], lit "node-a", lit "us-east-1a", [], false⟩] ∧
      Unmarshal text ≠ some [⟨[0xFF], lit "node-a", lit "us-east-1a", [], false⟩] := by
  have h : Unmarshal (lit "[\n  \x7b\n    \"PodName\": \"\\ufffd\",\n    \"NodeName\": \"node-a\",\n    \"NodeZone\": \"us-east-1a\",\n    \"PVInfo\": null,\n    \"ZoneMatched\": false\n  \x7d\n]\n") =
      some [⟨[0xEF, 0xBF, 0xBD], lit "node-a", lit "us-east-1a", [], false⟩] := by
    set_option maxRecDepth 100000 in decide
  refine ⟨by decide, _, by set_option maxRecDepth 100000 in rfl, h, ?_⟩
  rw [h]
  decide

/-- C10 (amended): JSON round trip for valid UTF-8.  For every `PodInfo` sequence
whose string fields (`PodName`, `NodeName`, `NodeZone`, and `PVCName`, `PVName`,
`PVZone` of every volume) are valid UTF-8, `printJSON` emits a text, and parsing
that text yields a sequence identical to the input, field for field, with pods
in input order and the volumes of each pod in `PVInfo` order. -/
theorem json_round_trip (podInfos : List PodInfo) (hvalid : podInfos.all PodInfo.valid = true) :
    ∃ text, printJSON podInfos [] = .ok text ∧ Unmarshal text = some podInfos := by
  obtain ⟨data, hdata, hlex⟩ := lexesTo_marshal podInfos hvalid
  refine ⟨data ++ lit "\n", ?_, unmarshal_of_lexesTo data podInfos hlex⟩
  simp [printJSON, hdata]

theorem json_round_trip_witness :
    [(⟨lit "pod-a", lit "node-a", lit "us-east-1a",
        [⟨lit "data-a", lit "pv-a", lit "us-east-1a"⟩], true⟩ : PodInfo)].all PodInfo.valid = true ∧
    printJSON [⟨lit "pod-a", lit "node-a", lit "us-east-1a",
        [⟨lit "data-a", lit "pv-a", lit "us-east-1a"⟩], true⟩] [] =
      .ok (lit "[\n  \x7b\n    \"PodName\": \"pod-a\",\n    \"NodeName\": \"node-a\",\n    \"NodeZone\": \"us-east-1a\",\n    \"PVInfo\": [\n      \x7b\n        \"PVCName\": \"data-a\",\n        \"PVName\": \"pv-a\",\n        \"PVZone\": \"us-east-1a\"\n      \x7d\n    ],\n    \"ZoneMatched\": true\n  \x7d\n]\n") ∧
    ∃ text,
      printJSON [⟨lit "pod-a", lit "node-a", lit "us-east-1a",
        [⟨lit "data-a", lit "pv-a", lit "us-east-1a"⟩], true⟩] [] = .ok text ∧
      Unmarshal text = some [⟨lit "pod-a", lit "node-a", lit "us-east-1a",
        [⟨lit "data-a", lit "pv-a", lit "us-east-1a"⟩], true⟩] :=
  ⟨by decide, by set_option maxRecDepth 100000 in rfl, json_round_trip _ (by decide)⟩

end ZonePeek
